import Mathlib

/-!
Verification of the cosma-brain note-graph builder.

The definitions below are a shallow embedding of the two conversion scripts
(the obsidian-to-brain.json exporter and the convert-obsidian file rewriter).
Text is modelled as Lean `String`; JavaScript `Map`s are modelled as
association lists with replace-on-set semantics; filesystem reads are
modelled as `Except` values carried by the input `MDFile` records; the
`mtime` of a file is modelled by its local-time calendar components, which
is exactly the view the code takes of it.  The md5 hash used for id
collision suffixes is implemented in full.
-/

namespace CosmaBrain

/-! ## JavaScript string primitives -/

/-- The character set matched by the JavaScript regex class backslash-s. -/
def isJsWs (c : Char) : Bool :=
  let n := c.toNat
  n = 0x20 || n = 0x09 || n = 0x0a || n = 0x0d || n = 0x0b || n = 0x0c ||
  n = 0xa0 || n = 0x1680 || (0x2000 ≤ n && n ≤ 0x200a) || n = 0x2028 ||
  n = 0x2029 || n = 0x202f || n = 0x205f || n = 0x3000 || n = 0xfeff

/-- JavaScript String.prototype.trim on a character list. -/
def jsTrimList (l : List Char) : List Char :=
  ((l.dropWhile isJsWs).reverse.dropWhile isJsWs).reverse

/-- JavaScript String.prototype.trim. -/
def jsTrim (s : String) : String := String.mk (jsTrimList s.data)

/-- JavaScript String.prototype.startsWith. -/
def jsStartsWith (s p : String) : Bool := p.data.isPrefixOf s.data

/-- ASCII lower-casing of one character (the repository only lower-cases
ASCII constants, folder names and tags). -/
def jsToLowerChar (c : Char) : Char :=
  if 'A' ≤ c && c ≤ 'Z' then Char.ofNat (c.toNat + 32) else c

/-- JavaScript String.prototype.toLowerCase, restricted to ASCII mapping. -/
def jsToLower (s : String) : String := String.mk (s.data.map jsToLowerChar)

/-- Split a character list at every separator position, JavaScript
String.prototype.split semantics (empty pieces kept). -/
def splitByAux (sep : Char → Bool) : List Char → List Char → List (List Char)
  | [], acc => [acc.reverse]
  | c :: rest, acc =>
    if sep c then acc.reverse :: splitByAux sep rest []
    else splitByAux sep rest (c :: acc)

/-- JavaScript s.split with a one-character-class separator. -/
def splitBy (sep : Char → Bool) (l : List Char) : List (List Char) :=
  splitByAux sep l []

/-- JavaScript s.split(sep) for a one-character separator. -/
def splitCh (sep : Char) (l : List Char) : List (List Char) :=
  splitBy (fun c => c = sep) l

/-- Does sub occur as a contiguous run inside l. -/
def infixAt (sub : List Char) : List Char → Bool
  | [] => sub.isEmpty
  | c :: rest => sub.isPrefixOf (c :: rest) || infixAt sub rest

/-- Substring containment, as tested by new RegExp with a literal pattern. -/
def containsStr (s sub : String) : Bool := infixAt sub.data s.data

/-! ## JavaScript Map, modelled as an association list.
Map.set replaces the value of an existing key in place (preserving
insertion order) and appends a fresh key at the end. -/

abbrev AList := List (String × String)

def mset (m : AList) (k v : String) : AList :=
  match m with
  | [] => [(k, v)]
  | (k0, v0) :: rest =>
    if k0 = k then (k0, v) :: rest else (k0, v0) :: mset rest k v

def mget (m : AList) (k : String) : Option String :=
  match m with
  | [] => none
  | (k0, v0) :: rest => if k0 = k then some v0 else mget rest k

def mhas (m : AList) (k : String) : Bool := (mget m k).isSome

/-! ## Identity assignment (generateId) -/

/-- The local-time calendar view of a file modification timestamp:
exactly the accessors the code reads from the Date object. -/
structure Mtime where
  year : Nat
  month : Nat
  day : Nat
  hour : Nat
  minute : Nat
  second : Nat
deriving DecidableEq, Repr

/-- Calendar components that a real Date produces (month is 1-based as in
getMonth() + 1).  Used as a hypothesis where the 14-character shape of
ids is asserted. -/
def Mtime.Valid (m : Mtime) : Prop :=
  1000 ≤ m.year ∧ m.year ≤ 9999 ∧ 1 ≤ m.month ∧ m.month ≤ 12 ∧
  1 ≤ m.day ∧ m.day ≤ 31 ∧ m.hour ≤ 23 ∧ m.minute ≤ 59 ∧ m.second ≤ 59

instance (m : Mtime) : Decidable m.Valid := by
  unfold Mtime.Valid; infer_instance

/-- Decimal digits of a natural number, most significant first. -/
def natDecAux : Nat → Nat → List Char
  | 0, _ => []
  | fuel + 1, n =>
    if n < 10 then [Char.ofNat (48 + n)]
    else natDecAux fuel (n / 10) ++ [Char.ofNat (48 + n % 10)]

/-- JavaScript String(n) for a natural number. -/
def natDec (n : Nat) : String := String.mk (natDecAux (n + 1) n)

/-- String(n).padStart(2, zero). -/
def pad2 (n : Nat) : String := if n < 10 then ("0") ++ natDec n else natDec n

/-- generateId: the YYYYMMDDHHMMSS local-time string of the mtime. -/
def generateId (m : Mtime) : String :=
  natDec m.year ++ pad2 m.month ++ pad2 m.day ++
  pad2 m.hour ++ pad2 m.minute ++ pad2 m.second

/-! ## md5 (crypto.createHash md5), used for collision suffixes -/

/-- UTF-8 encoding of one character. -/
def encodeChar (c : Char) : List Nat :=
  let n := c.toNat
  if n < 0x80 then [n]
  else if n < 0x800 then [0xc0 + n / 64, 0x80 + n % 64]
  else if n < 0x10000 then
    [0xe0 + n / 4096, 0x80 + (n / 64) % 64, 0x80 + n % 64]
  else
    [0xf0 + n / 262144, 0x80 + (n / 4096) % 64, 0x80 + (n / 64) % 64,
     0x80 + n % 64]

/-- UTF-8 bytes of a string (Buffer.from(s)). -/
def utf8Bytes (s : String) : List Nat := s.data.flatMap encodeChar

/-- Little-endian byte decomposition, k bytes. -/
def leBytes : Nat → Nat → List Nat
  | 0, _ => []
  | k + 1, n => n % 256 :: leBytes k (n / 256)

/-- md5 padding: 0x80, zeros to 56 mod 64, then the 64-bit bit length. -/
def md5pad (msg : List Nat) : List Nat :=
  msg ++ 0x80 :: List.replicate ((119 - msg.length % 64) % 64) 0 ++
    leBytes 8 (8 * msg.length)

/-- Split 64 bytes into 16 little-endian 32-bit words. -/
def toWords : List Nat → List Nat
  | b0 :: b1 :: b2 :: b3 :: rest =>
    (b0 + 256 * b1 + 65536 * b2 + 16777216 * b3) :: toWords rest
  | _ => []

def rotl32 (x s : Nat) : Nat := ((x <<< s) ||| (x >>> (32 - s))) % 4294967296

def md5K : List Nat :=
  [0xd76aa478, 0xe8c7b756, 0x242070db, 0xc1bdceee,
   0xf57c0faf, 0x4787c62a, 0xa8304613, 0xfd469501,
   0x698098d8, 0x8b44f7af, 0xffff5bb1, 0x895cd7be,
   0x6b901122, 0xfd987193, 0xa679438e, 0x49b40821,
   0xf61e2562, 0xc040b340, 0x265e5a51, 0xe9b6c7aa,
   0xd62f105d, 0x02441453, 0xd8a1e681, 0xe7d3fbc8,
   0x21e1cde6, 0xc33707d6, 0xf4d50d87, 0x455a14ed,
   0xa9e3e905, 0xfcefa3f8, 0x676f02d9, 0x8d2a4c8a,
   0xfffa3942, 0x8771f681, 0x6d9d6122, 0xfde5380c,
   0xa4beea44, 0x4bdecfa9, 0xf6bb4b60, 0xbebfbc70,
   0x289b7ec6, 0xeaa127fa, 0xd4ef3085, 0x04881d05,
   0xd9d4d039, 0xe6db99e5, 0x1fa27cf8, 0xc4ac5665,
   0xf4292244, 0x432aff97, 0xab9423a7, 0xfc93a039,
   0x655b59c3, 0x8f0ccc92, 0xffeff47d, 0x85845dd1,
   0x6fa87e4f, 0xfe2ce6e0, 0xa3014314, 0x4e0811a1,
   0xf7537e82, 0xbd3af235, 0x2ad7d2bb, 0xeb86d391]

def md5S : List Nat :=
  [7, 12, 17, 22, 7, 12, 17, 22, 7, 12, 17, 22, 7, 12, 17, 22,
   5, 9, 14, 20, 5, 9, 14, 20, 5, 9, 14, 20, 5, 9, 14, 20,
   4, 11, 16, 23, 4, 11, 16, 23, 4, 11, 16, 23, 4, 11, 16, 23,
   6, 10, 15, 21, 6, 10, 15, 21, 6, 10, 15, 21, 6, 10, 15, 21]

structure MD5State where
  a : Nat
  b : Nat
  c : Nat
  d : Nat

def md5F (i b c d : Nat) : Nat :=
  if i < 16 then (b &&& c) ||| ((b ^^^ 0xffffffff) &&& d)
  else if i < 32 then (d &&& b) ||| ((d ^^^ 0xffffffff) &&& c)
  else if i < 48 then b ^^^ c ^^^ d
  else c ^^^ (b ||| (d ^^^ 0xffffffff))

def md5g (i : Nat) : Nat :=
  if i < 16 then i
  else if i < 32 then (5 * i + 1) % 16
  else if i < 48 then (3 * i + 5) % 16
  else (7 * i) % 16

def md5round (M : List Nat) (st : MD5State) (i : Nat) : MD5State :=
  let f := (md5F i st.b st.c st.d + st.a + md5K.getD i 0 +
            M.getD (md5g i) 0) % 4294967296
  ⟨st.d, (st.b + rotl32 f (md5S.getD i 0)) % 4294967296, st.b, st.c⟩

def md5chunk (st : MD5State) (chunk : List Nat) : MD5State :=
  let M := toWords chunk
  let r := (List.range 64).foldl (md5round M) st
  ⟨(st.a + r.a) % 4294967296, (st.b + r.b) % 4294967296,
   (st.c + r.c) % 4294967296, (st.d + r.d) % 4294967296⟩

/-- Fold over 64-byte chunks; fuel bounds the number of chunks. -/
def md5chunksAux : Nat → List Nat → MD5State → MD5State
  | 0, _, st => st
  | _, [], st => st
  | fuel + 1, bytes, st =>
    md5chunksAux fuel (bytes.drop 64) (md5chunk st (bytes.take 64))

def hexDigit (n : Nat) : Char :=
  if n < 10 then Char.ofNat (48 + n) else Char.ofNat (87 + n)

def hexByte (n : Nat) : List Char := [hexDigit (n / 16), hexDigit (n % 16)]

/-- crypto.createHash(md5).update(s).digest(hex). -/
def md5hex (s : String) : String :=
  let msg := md5pad (utf8Bytes s)
  let st := md5chunksAux msg.length msg
    ⟨0x67452301, 0xefcdab89, 0x98badcfe, 0x10325476⟩
  String.mk ((leBytes 4 st.a ++ leBytes 4 st.b ++ leBytes 4 st.c ++
              leBytes 4 st.d).flatMap hexByte)

/-- digest(hex).slice(0, 4): the 4-character collision suffix body. -/
def md5hex4 (s : String) : String := String.mk ((md5hex s).data.take 4)

/-! ## path.parse(..).name on posix paths -/

/-- Drop trailing occurrences of a character. -/
def dropTrailing (c : Char) (l : List Char) : List Char :=
  (l.reverse.dropWhile (· = c)).reverse

/-- path.basename: the segment after the last separator, ignoring trailing
separators. -/
def basenamePosix (l : List Char) : List Char :=
  ((dropTrailing '/' l).reverse.takeWhile (· ≠ '/')).reverse

/-- Index of the last occurrence of a character. -/
def lastIdxOf (c : Char) (l : List Char) : Option Nat :=
  match l.reverse.findIdx? (· = c) with
  | none => none
  | some i => some (l.length - 1 - i)

/-- path.parse(p).name: basename with the trailing extension removed.
The extension starts at the last dot of the basename, except when that dot
is the leading character (hidden files keep their name) and except for the
basename consisting of two dots. -/
def parseNameList (p : List Char) : List Char :=
  let b := basenamePosix p
  match lastIdxOf '.' b with
  | none => b
  | some 0 => b
  | some d => if b = ['.', '.'] then b else b.take d

def parseName (p : String) : String := String.mk (parseNameList p.data)

/-! ## Regex scanners.

Each scanner implements the exact leftmost, non-overlapping semantics of
the global regex replace / match calls in the source, specialised to the
fixed patterns of the scripts.  Recursion is by explicit fuel (one unit
per consumed character suffices because every step consumes at least one
character). -/

/-- Match the tail of a double-bracket reference: one or more characters
other than a closing bracket, then the two closing brackets.  Returns the
inner text and the remainder after the match. -/
def innerMatch (l : List Char) : Option (List Char × List Char) :=
  let inner := l.takeWhile (· ≠ ']')
  let rest := l.dropWhile (· ≠ ']')
  if inner.isEmpty then none
  else
    match rest with
    | ']' :: ']' :: rest2 => some (inner, rest2)
    | _ => none

/-- Match the wikilink pattern (optional image bang, then a double-bracket
reference) at the head of the list. -/
def tryWiki (l : List Char) : Option (Bool × List Char × List Char) :=
  if ['!', '[', '['].isPrefixOf l then
    (innerMatch (l.drop 3)).map (fun p => (true, p.1, p.2))
  else if ['[', '['].isPrefixOf l then
    (innerMatch (l.drop 2)).map (fun p => (false, p.1, p.2))
  else none

/-- content.replace over the wikilink pattern: f receives the image flag
and the inner text of each match. -/
def wikiScanAux (f : Bool → List Char → List Char) :
    Nat → List Char → List Char
  | 0, l => l
  | _ + 1, [] => []
  | fuel + 1, c :: rest =>
    match tryWiki (c :: rest) with
    | some (img, inner, rest2) => f img inner ++ wikiScanAux f fuel rest2
    | none => c :: wikiScanAux f fuel rest

/-- All inner texts of the plain double-bracket pattern (the tagLink
regex) in scan order. -/
def tagMatchesAux : Nat → List Char → List (List Char)
  | 0, _ => []
  | _ + 1, [] => []
  | fuel + 1, c :: rest =>
    if ['[', '['].isPrefixOf (c :: rest) then
      match innerMatch rest.tail with
      | some (inner, rest2) => inner :: tagMatchesAux fuel rest2
      | none => tagMatchesAux fuel rest
    else tagMatchesAux fuel rest

/-! ## Tag and metadata extraction -/

def TAG_MARKER : String := "Tags:"
def LINK_MARKER : String := "Link:"
def SECOND_BRAIN_TAG : String := "Second Brain"
def DEFAULT_RECORD_TYPE : String := "note"

structure TagsResult where
  tags : List String
  content : String
deriving DecidableEq, Repr

/-- extractTags: when the first line starts with the tag marker, collect
the bracketed references on it as tags and drop the line together with the
leading newlines of the remainder. -/
def extractTags (content : String) : TagsResult :=
  match splitCh '\n' content.data with
  | [] => ⟨[], content⟩
  | l0 :: rest =>
    if TAG_MARKER.data.isPrefixOf l0 then
      ⟨(tagMatchesAux l0.length l0).map String.mk,
       String.mk ((List.intercalate ['\n'] rest).dropWhile (· = '\n'))⟩
    else ⟨[], content⟩

/-! ## Type classifier -/

/-- s.replace of every whitespace run by a single hyphen. -/
def hyphenAux : Nat → List Char → List Char
  | 0, l => l
  | _ + 1, [] => []
  | fuel + 1, c :: rest =>
    if isJsWs c then '-' :: hyphenAux fuel (rest.dropWhile isJsWs)
    else c :: hyphenAux fuel rest

def hyphenateWs (s : String) : String := String.mk (hyphenAux s.data.length s.data)

/-- Fallback type from the file location: the parent folder name when the
document is not directly at the vault root, else the default type. -/
def pathType (relPath : String) : String :=
  let parts := splitCh '/' relPath.data
  if parts.length > 1 then
    hyphenateWs (jsToLower (String.mk (parts.getD (parts.length - 2) [])))
  else DEFAULT_RECORD_TYPE

/-- recordType: first tag (when present and not the root tag) lower-cased
and hyphenated, else the location fallback. -/
def recordType (tags : List String) (relPath : String) : String :=
  match tags with
  | t :: _ =>
    if t ≠ SECOND_BRAIN_TAG then hyphenateWs (jsToLower t) else pathType relPath
  | [] => pathType relPath

/-- isExcluded: the top path segment, lower-cased, is in the excluded list. -/
def isExcluded (relPath : String) (excludedFolders : List String) : Bool :=
  excludedFolders.contains (jsToLower (String.mk ((splitCh '/' relPath.data).headD [])))

/-! ## Link resolver -/

/-- JavaScript a || b for an optional string whose empty value is falsy. -/
def orElseStr (a : Option String) (b : String) : String :=
  match a with
  | some s => if s = "" then b else s
  | none => b

/-- Array.prototype.join with a separator. -/
def joinStr (sep : String) : List String → String
  | [] => ""
  | [x] => x
  | x :: rest => x ++ sep ++ joinStr sep rest

/-- The lookup of the resolver: the case-sensitive map first, then the
case-insensitive one (the nullish-coalescing chain of the source). -/
def lookupId (titleToId titleToIdCi : AList) (base : String) : Option String :=
  match mget titleToId base with
  | some i => some i
  | none => mget titleToIdCi (jsToLower base)

/-- The replace callback of resolveLinks for one non-image reference. -/
def resolveOne (titleToId titleToIdCi : AList) (inner : List Char) : List Char :=
  let parts := splitCh '|' inner
  let raw := jsTrimList (parts.headD [])
  let display : List Char :=
    match parts with
    | _ :: d :: _ => jsTrimList d
    | _ => []
  let target := parseNameList (if raw.isEmpty then inner else raw)
  match lookupId titleToId titleToIdCi (String.mk target) with
  | some i =>
    ('[' :: '[' :: i.data) ++
      ('|' :: (if display.isEmpty then target else display)) ++ [']', ']']
  | none => '[' :: '[' :: inner ++ [']', ']']

/-- resolveLinks: rewrite every non-image wikilink whose target base name
is found in the title maps (case-sensitive first, then case-insensitive)
into an id reference; image references and unresolved references are left
as they are. -/
def resolveLinks (content : String) (titleToId titleToIdCi : AList) : String :=
  String.mk (wikiScanAux
    (fun img inner =>
      if img then '!' :: '[' :: '[' :: inner ++ [']', ']']
      else resolveOne titleToId titleToIdCi inner)
    content.data.length content.data)

/-! ## Category linker -/

/-- addCategoryLinks: prepend a root-tag link and a first-tag link when the
corresponding note exists, is not the document itself and is not already
referenced; joined by a space and separated from the trimmed body by a
blank line. -/
def addCategoryLinks (content : String) (tags : List String) (id : String)
    (titleToId idToTitle : AList) : String :=
  let add1 : List String :=
    if tags.contains SECOND_BRAIN_TAG then
      match mget titleToId SECOND_BRAIN_TAG with
      | some sbId =>
        if sbId ≠ id && !containsStr content ("[[" ++ sbId) then
          ["[[" ++ sbId ++ "|" ++ SECOND_BRAIN_TAG ++ "]]"]
        else []
      | none => []
    else []
  let add2 : List String :=
    match tags with
    | t0 :: _ =>
      if t0 ≠ "" && t0 ≠ SECOND_BRAIN_TAG then
        match mget titleToId t0 with
        | some catId =>
          if catId ≠ id && !containsStr content ("[[" ++ catId) then
            ["[[" ++ catId ++ "|" ++ orElseStr (mget idToTitle catId) t0 ++ "]]"]
          else []
        | none => []
      else []
    | [] => []
  let add := add1 ++ add2
  if add.isEmpty then content
  else joinStr (" ") add ++ "\n\n" ++ jsTrim content

/-! ## Tag-link scrubber -/

/-- One unit of the leading-links pattern: a double-bracket reference
followed by optional whitespace. -/
def tryLinkUnit (l : List Char) : Option (List Char × List Char) :=
  if ['[', '['].isPrefixOf l then
    match innerMatch (l.drop 2) with
    | some (inner, rest2) =>
      some ('[' :: '[' :: inner ++ [']', ']'] ++ rest2.takeWhile isJsWs,
            rest2.dropWhile isJsWs)
    | none => none
  else none

/-- The maximal anchored run of link units; none when there is no unit. -/
def leadingRunAux : Nat → List Char → List Char → Option (List Char × List Char)
  | 0, acc, l => if acc.isEmpty then none else some (acc, l)
  | fuel + 1, acc, l =>
    match tryLinkUnit l with
    | some (m, rest) => leadingRunAux fuel (acc ++ m) rest
    | none => if acc.isEmpty then none else some (acc, l)

def leadingRun (l : List Char) : Option (List Char × List Char) :=
  leadingRunAux l.length [] l

/-- removeLeadingTagLinks: drop a leading run of references when the
trimmed text after it starts with the link marker. -/
def removeLeadingTagLinks (content : String) : String :=
  match leadingRun content.data with
  | some (_, rest) =>
    let after := jsTrimList rest
    if LINK_MARKER.data.isPrefixOf after then String.mk after else content
  | none => content

/-! ## Id-reference scanner (the linkId pattern of the exporter:
optional bang, 14 digits, optional 4-hex-digit dash suffix, optional
display text) -/

def isDigitCh (c : Char) : Bool := '0' ≤ c && c ≤ '9'

def isHexLower (c : Char) : Bool := isDigitCh c || ('a' ≤ c && c ≤ 'f')

/-- Match the optional display part and the closing brackets. -/
def finishIdMatch (l : List Char) : Option (Option (List Char) × List Char) :=
  match l with
  | '|' :: r =>
    let d := r.takeWhile (· ≠ ']')
    if d.isEmpty then none
    else
      match r.dropWhile (· ≠ ']') with
      | ']' :: ']' :: rest => some (some d, rest)
      | _ => none
  | ']' :: ']' :: rest => some (none, rest)
  | _ => none

/-- After the opening brackets: the id (with optional collision suffix),
the optional display text, and the remainder. -/
def tryIdInner (l : List Char) : Option (List Char × Option (List Char) × List Char) :=
  let ds := l.take 14
  if ds.length = 14 && ds.all isDigitCh then
    match l.drop 14 with
    | '-' :: r =>
      let h := r.take 4
      if h.length = 4 && h.all isHexLower then
        match finishIdMatch (r.drop 4) with
        | some (d, rest2) => some (ds ++ '-' :: h, d, rest2)
        | none => none
      else none
    | rest =>
      match finishIdMatch rest with
      | some (d, rest2) => some (ds, d, rest2)
      | none => none
  else none

/-- Match the full id-reference pattern at the head of the list. -/
def tryLinkId (l : List Char) : Option (Bool × List Char × Option (List Char) × List Char) :=
  if ['!', '[', '['].isPrefixOf l then
    (tryIdInner (l.drop 3)).map (fun p => (true, p.1, p.2.1, p.2.2))
  else if ['[', '['].isPrefixOf l then
    (tryIdInner (l.drop 2)).map (fun p => (false, p.1, p.2.1, p.2.2))
  else none

structure Link where
  targetId : String
  displayText : String
deriving DecidableEq, Repr

/-- extractLinks: every non-image id reference of the body in scan order. -/
def extractLinksAux : Nat → List Char → List Link
  | 0, _ => []
  | _ + 1, [] => []
  | fuel + 1, c :: rest =>
    match tryLinkId (c :: rest) with
    | some (img, id, d, rest2) =>
      if img then extractLinksAux fuel rest2
      else
        { targetId := String.mk id,
          displayText :=
            match d with
            | some dd => String.mk dd
            | none => String.mk id } :: extractLinksAux fuel rest2
    | none => extractLinksAux fuel rest

def extractLinks (body : String) : List Link :=
  extractLinksAux body.data.length body.data

/-- Collapse every run of three or more newlines into two. -/
def collapseNl : Nat → List Char → List Char
  | 0, l => l
  | _ + 1, [] => []
  | fuel + 1, c :: rest =>
    if c = '\n' then
      (if (rest.takeWhile (· = '\n')).length + 1 ≥ 3 then ['\n', '\n']
       else '\n' :: rest.takeWhile (· = '\n')) ++
        collapseNl fuel (rest.dropWhile (· = '\n'))
    else c :: collapseNl fuel rest

/-- The replace pass of bodyToReadable over id references. -/
def bodyToReadableAux (idToTitle : AList) : Nat → List Char → List Char
  | 0, l => l
  | _ + 1, [] => []
  | fuel + 1, c :: rest =>
    match tryLinkId (c :: rest) with
    | some (img, id, d, rest2) =>
      if img then bodyToReadableAux idToTitle fuel rest2
      else
        let text :=
          match d with
          | some dd => String.mk dd
          | none => orElseStr (mget idToTitle (String.mk id)) (String.mk id)
        ('[' :: text.data ++ ']' :: '(' :: '#' :: 'n' :: '-' :: id) ++
          ')' :: bodyToReadableAux idToTitle fuel rest2
    | none => c :: bodyToReadableAux idToTitle fuel rest

/-- bodyToReadable: id references become readable anchors, image embeds
are dropped, long newline runs are collapsed, and the result is trimmed. -/
def bodyToReadable (body : String) (idToTitle : AList) : String :=
  let r := bodyToReadableAux idToTitle body.data.length body.data
  String.mk (jsTrimList (collapseNl r.length r))

/-! ## Image resolver -/

def IMAGE_EXTENSIONS : List String := [".png", ".webp", ".jpg", ".jpeg", ".gif", ".svg"]

def tryExts : List String → String → AList → Option String
  | [], _, _ => none
  | e :: rest, t, m =>
    match mget m (t ++ e) with
    | some p => some p
    | none => tryExts rest t m

/-- resolveImagePath: exact name, then name with each known extension. -/
def resolveImagePath (ref : String) (imageMap : AList) : Option String :=
  match mget imageMap (jsTrim ref) with
  | some p => some p
  | none => tryExts IMAGE_EXTENSIONS (jsTrim ref) imageMap

/-- Match the image-embed pattern (mandatory bang) at the head. -/
def tryImgWiki (l : List Char) : Option (List Char × List Char) :=
  if ['!', '[', '['].isPrefixOf l then innerMatch (l.drop 3) else none

/-- The markup produced for one resolvable image embed. -/
def imgTag (inner : List Char) (imageMap : AList) : List Char :=
  let parts := splitCh '|' inner
  let namePart := jsTrimList (parts.headD [])
  let sizePart : Option (List Char) :=
    match parts with
    | _ :: s :: _ => some (jsTrimList s)
    | _ => none
  let raw := if namePart.isEmpty then inner else namePart
  let base :=
    if raw.contains '/' then
      (splitBy (fun c => c = '/' || c = '\\') raw).getLastD []
    else raw
  match resolveImagePath (String.mk base) imageMap with
  | none => []
  | some src =>
    let destName := basenamePosix src.data
    let alt := (parseNameList destName).flatMap
      (fun c => if c = '"' then ("&quot;").data else [c])
    let sizeAttr : List Char :=
      match sizePart with
      | some sp =>
        if sp.isEmpty then []
        else
          match ((splitBy (fun c => c = 'x' || c = 'X') sp).map jsTrimList).filter
              (fun l => !l.isEmpty) with
          | w :: h :: _ =>
            " style=\"max-width: min(".data ++ w ++ "px, 100%); max-height: min(".data ++
              h ++ "px, 100%)\"".data
          | [w] => " style=\"max-width: min(".data ++ w ++ "px, 100%)\"".data
          | [] => []
      | none => []
    "<img src=\"/dist/images/".data ++ destName ++ "\" alt=\"".data ++ alt ++
      ['"'] ++ sizeAttr ++ ['>']

/-- The scan of resolveImagesInContent: with no image map every embed is
deleted; with a map each embed is replaced by its markup (empty when the
asset does not resolve). -/
def resolveImagesAux (imageMap : Option AList) : Nat → List Char → List Char
  | 0, l => l
  | _ + 1, [] => []
  | fuel + 1, c :: rest =>
    match tryImgWiki (c :: rest) with
    | some (inner, rest2) =>
      (match imageMap with
       | none => []
       | some m => imgTag inner m) ++ resolveImagesAux imageMap fuel rest2
    | none => c :: resolveImagesAux imageMap fuel rest

def resolveImagesInContent (content : String) (imageMap : Option AList) : String :=
  String.mk (resolveImagesAux imageMap content.data.length content.data)

/-! ## The exporter pipeline (obsidian-to-brain.json) -/

/-- One discovered document: its vault-relative path, its modification
timestamp (as the local-time components the code reads from it), and the
result of reading it (the filesystem read is the only fallible step of the
per-document work). -/
structure MDFile where
  relPath : String
  mtime : Mtime
  content : Except String String
deriving Repr

structure Note where
  id : String
  title : String
  type : String
  tags : List String
  path : String
  content : String
  links : List Link
  backlinks : List String
deriving DecidableEq, Repr

structure Metadata where
  generatedAt : String
  noteCount : Nat
  excludedFolders : List String
deriving DecidableEq, Repr

structure Output where
  metadata : Metadata
  noteIndex : List (String × String)
  notes : List Note
deriving DecidableEq, Repr

def fullPath (brainDir : String) (f : MDFile) : String :=
  brainDir ++ "/" ++ f.relPath

/-- The id assignment loop: each file gets its timestamp id, except that a
file whose id is already taken by a different path gets the 4-hex md5
suffix of its own full path.  Returns the path-to-id map in discovery
order. -/
def assignIdsAux (brainDir : String) :
    List MDFile → AList → AList → AList
  | [], _, pathToId => pathToId
  | f :: rest, idToPath, pathToId =>
    let fp := fullPath brainDir f
    let id0 := generateId f.mtime
    let id :=
      if mhas idToPath id0 && mget idToPath id0 ≠ some fp then
        id0 ++ "-" ++ md5hex4 fp
      else id0
    assignIdsAux brainDir rest (mset idToPath id fp) (mset pathToId fp id)

def assignIds (brainDir : String) (files : List MDFile) : AList :=
  assignIdsAux brainDir files [] []

structure TitleMaps where
  titleToId : AList
  idToTitle : AList
  titleToIdCi : AList
deriving Repr

/-- The title map loop over the path-to-id entries in discovery order;
later files with an equal title overwrite earlier ones. -/
def buildTitleMapsAux : AList → TitleMaps → TitleMaps
  | [], maps => maps
  | (fp, id) :: rest, maps =>
    let title := parseName fp
    buildTitleMapsAux rest
      ⟨mset maps.titleToId title id, mset maps.idToTitle id title,
       mset maps.titleToIdCi (jsToLower title) id⟩

def buildTitleMaps (pathToId : AList) : TitleMaps :=
  buildTitleMapsAux pathToId ⟨[], [], []⟩

/-- The per-document body pipeline and note assembly.  The id lookup is
total: every included file received an id in the assignment loop. -/
def buildNote (brainDir : String) (pathToId : AList) (maps : TitleMaps)
    (imageMap : Option AList) (f : MDFile) (raw : String) : Note :=
  let tr := extractTags raw
  let c1 := resolveLinks tr.content maps.titleToId maps.titleToIdCi
  let fp := fullPath brainDir f
  let id := (mget pathToId fp).getD ("")
  let c2 := addCategoryLinks c1 tr.tags id maps.titleToId maps.idToTitle
  let links := extractLinks c2
  let c3 := removeLeadingTagLinks c2
  let c4 := resolveImagesInContent c3 imageMap
  { id := id
    title := parseName fp
    type := recordType tr.tags f.relPath
    tags := tr.tags
    path := f.relPath
    content := bodyToReadable c4 maps.idToTitle
    links := links
    backlinks := [] }

/-- The per-document loop of exportBrain.  There is no per-document
recovery in this script: the first failing read aborts the whole run. -/
def processIncluded (brainDir : String) (pathToId : AList) (maps : TitleMaps)
    (imageMap : Option AList) : List MDFile → Except String (List Note)
  | [] => .ok []
  | f :: rest =>
    match f.content with
    | .error e => .error e
    | .ok raw =>
      match processIncluded brainDir pathToId maps imageMap rest with
      | .error e => .error e
      | .ok ns => .ok (buildNote brainDir pathToId maps imageMap f raw :: ns)

/-- The backlink index: for a target id, the titles of the notes whose
links hit it, in note order, with multiplicity. -/
def backlinksFor (ns : List Note) (tid : String) : List String :=
  ns.flatMap (fun m =>
    (m.links.filter (fun l => l.targetId == tid)).map (fun _ => m.title))

def attachBacklinks (ns : List Note) : List Note :=
  ns.map (fun n => { n with backlinks := backlinksFor ns n.id })

/-- exportBrain: discovery order is the order of the input list; the
generatedAt timestamp is an input of the run. -/
def exportBrain (brainDir : String) (files : List MDFile)
    (excludedFolders : List String) (imageMap : Option AList)
    (generatedAt : String) : Except String Output :=
  let pathToId := assignIds brainDir files
  let maps := buildTitleMaps pathToId
  let included := files.filter (fun f => !isExcluded f.relPath excludedFolders)
  match processIncluded brainDir pathToId maps imageMap included with
  | .error e => .error e
  | .ok ns0 =>
    let notes := attachBacklinks ns0
    .ok { metadata := { generatedAt := generatedAt, noteCount := notes.length,
                        excludedFolders := excludedFolders },
          noteIndex := notes.map (fun n => (n.id, n.title)),
          notes := notes }

/-- The notes of a run, empty when the run aborted. -/
def notesOf (r : Except String Output) : List Note :=
  match r with
  | .ok o => o.notes
  | .error _ => []

/-! ## The convert-obsidian variant (per-file rewriter), needed for the
error-handling contrast: its per-document loop catches failures. -/

def DEFAULT_RECORD_TYPE_CONV : String := "undefined"

def pathTypeConv (relPath : String) : String :=
  let parts := splitCh '/' relPath.data
  if parts.length > 1 then
    hyphenateWs (jsToLower (String.mk (parts.getD (parts.length - 2) [])))
  else DEFAULT_RECORD_TYPE_CONV

def determineRecordType (tags : List String) (relPath : String) : String :=
  match tags with
  | t :: _ =>
    if t ≠ SECOND_BRAIN_TAG then hyphenateWs (jsToLower t) else pathTypeConv relPath
  | [] => pathTypeConv relPath

def buildFrontmatter (title id rt : String) (tags : List String) : String :=
  "---\ntitle: " ++ title ++ "\nid: " ++ id ++ "\ntype: " ++ rt ++ "\n" ++
  (if tags.isEmpty then ("")
   else ("tags:\n") ++ String.join (tags.map (fun t => "  - " ++ t ++ "\n"))) ++
  "---\n\n"

/-- Does the createLinkPattern regex for an id match at the head. -/
def linkPatAt (idl : List Char) (l : List Char) : Bool :=
  if ('[' :: '[' :: idl).isPrefixOf l then
    match l.drop (idl.length + 2) with
    | ']' :: ']' :: _ => true
    | '|' :: r2 =>
      !(r2.takeWhile (· ≠ ']')).isEmpty &&
        (match r2.dropWhile (· ≠ ']') with
         | ']' :: ']' :: _ => true
         | _ => false)
    | _ => false
  else false

def scanAny (p : List Char → Bool) : List Char → Bool
  | [] => p []
  | c :: rest => p (c :: rest) || scanAny p rest

/-- createLinkPattern(id).test(content). -/
def containsLinkPat (content id : String) : Bool :=
  scanAny (linkPatAt id.data) content.data

/-- The convertLinks callback (differs from the exporter variant in its
falsy-based fallbacks). -/
def convResolveOne (titleToIdMap ci : AList) (inner : List Char) : List Char :=
  let parts := splitCh '|' inner
  let linkTarget := jsTrimList (parts.headD [])
  let displayText : List Char :=
    match parts with
    | _ :: d :: _ => if d.isEmpty then [] else jsTrimList d
    | _ => []
  let target := parseNameList linkTarget
  let tid : Option String :=
    match mget titleToIdMap (String.mk target) with
    | some v =>
      if v = "" then mget ci (jsToLower (String.mk target)) else some v
    | none => mget ci (jsToLower (String.mk target))
  match tid with
  | some v =>
    if v = "" then '[' :: '[' :: inner ++ [']', ']']
    else if displayText.isEmpty then
      ('[' :: '[' :: v.data) ++ '|' :: target ++ [']', ']']
    else ('[' :: '[' :: v.data) ++ '|' :: displayText ++ [']', ']']
  | none => '[' :: '[' :: inner ++ [']', ']']

def ciOf (m : AList) : AList :=
  m.foldl (fun acc kv => mset acc (jsToLower kv.1) kv.2) []

def convertLinks (content : String) (titleToIdMap : AList) : String :=
  String.mk (wikiScanAux
    (fun img inner =>
      if img then '!' :: '[' :: '[' :: inner ++ [']', ']']
      else convResolveOne titleToIdMap (ciOf titleToIdMap) inner)
    content.data.length content.data)

/-- shouldAddLink: the target exists and no reference to it is present. -/
def shouldAddLink (content : String) (targetId : Option String) : Bool :=
  match targetId with
  | none => false
  | some t => if t = "" then false else !containsLinkPat content t

def addCategoryLinksConv (content : String) (tags : List String) (id : String)
    (titleToIdMap idToTitleMap : AList) : String :=
  let add1 : List String :=
    if tags.contains SECOND_BRAIN_TAG then
      let sbId := mget titleToIdMap SECOND_BRAIN_TAG
      if shouldAddLink content sbId && sbId ≠ some id then
        ["[[" ++ sbId.getD ("") ++ "|" ++ SECOND_BRAIN_TAG ++ "]]"]
      else []
    else []
  let add2 : List String :=
    match tags with
    | t0 :: _ =>
      if t0 ≠ SECOND_BRAIN_TAG then
        let catId := mget titleToIdMap t0
        if shouldAddLink content catId && catId ≠ some id then
          ["[[" ++ catId.getD ("") ++ "|" ++
            orElseStr (mget idToTitleMap (catId.getD (""))) t0 ++ "]]"]
        else []
      else []
    | [] => []
  let add := add1 ++ add2
  if add.isEmpty then content
  else joinStr (" ") add ++ "\n\n" ++ jsTrim content

/-- removeOldTagLinks of the rewriter: identical logic to the scrubber. -/
def removeOldTagLinks (content : String) : String := removeLeadingTagLinks content

/-- convertFile: the pure body of the rewriter for one file whose read
succeeded. -/
def convertFile (f : MDFile) (raw : String)
    (titleToIdMap idToTitleMap : AList) (brainDir fileId : String) : String :=
  let title := parseName (fullPath brainDir f)
  let tr := extractTags raw
  let rt := determineRecordType tr.tags f.relPath
  let fm := buildFrontmatter title fileId rt tr.tags
  let c1 := convertLinks tr.content titleToIdMap
  let c2 := addCategoryLinksConv c1 tr.tags fileId titleToIdMap idToTitleMap
  let c3 := removeOldTagLinks c2
  fm ++ c3

structure ConvResult where
  outputs : List (String × String)
  convertedCount : Nat
deriving DecidableEq, Repr

/-- The per-file loop of the rewriter: every file is processed inside a
try/catch, so a failing read is logged, skipped and the loop continues. -/
def processFiles (brainDir : String)
    (titleToIdMap idToTitleMap fileIdCache : AList) :
    List MDFile → ConvResult
  | [] => ⟨[], 0⟩
  | f :: rest =>
    let tail := processFiles brainDir titleToIdMap idToTitleMap fileIdCache rest
    match f.content with
    | .error _ => tail
    | .ok raw =>
      let id := (mget fileIdCache (fullPath brainDir f)).getD ("")
      ⟨(f.relPath, convertFile f raw titleToIdMap idToTitleMap brainDir id)
          :: tail.outputs,
       tail.convertedCount + 1⟩

structure FileMaps where
  titleToIdMap : AList
  idToTitleMap : AList
  fileIdCache : AList
deriving Repr

/-- buildFileMaps of the rewriter (no collision handling in this variant). -/
def buildFileMapsAux (brainDir : String) : List MDFile → FileMaps → FileMaps
  | [], m => m
  | f :: rest, m =>
    let fp := fullPath brainDir f
    let id := generateId f.mtime
    let title := parseName fp
    let fnwe := parseName (String.mk (basenamePosix fp.data))
    buildFileMapsAux brainDir rest
      ⟨(if fnwe ≠ title then mset (mset m.titleToIdMap title id) fnwe id
        else mset m.titleToIdMap title id),
       mset m.idToTitleMap id title,
       mset m.fileIdCache fp id⟩

def buildFileMaps (brainDir : String) (files : List MDFile) : FileMaps :=
  buildFileMapsAux brainDir files ⟨[], [], []⟩

/-- Modelled from the spec wording of the collision policy (for the
refinement comparison only): the expected id of a file given the files
discovered before it — the bare timestamp id when no earlier file shares
it, else the timestamp id with the 4-hex md5 suffix of its own path. -/
def specId (bd : String) (prev : List MDFile) (f : MDFile) : String :=
  if prev.any (fun g => generateId g.mtime = generateId f.mtime) then
    generateId f.mtime ++ "-" ++ md5hex4 (fullPath bd f)
  else generateId f.mtime

/-- The spec-side id assignment: every file paired with its expected id. -/
def specAssignAux (bd : String) (prev : List MDFile) : List MDFile → AList
  | [] => []
  | f :: rest => (fullPath bd f, specId bd prev f) :: specAssignAux bd (prev ++ [f]) rest

/-- Three documents with the same modification time; the second and third
have paths whose md5 digests share their first four hex characters. -/
def c2vault : List MDFile :=
  [⟨"note1.md", ⟨2024, 1, 2, 3, 4, 5⟩, .ok ("")⟩,
   ⟨"note285.md", ⟨2024, 1, 2, 3, 4, 5⟩, .ok ("")⟩,
   ⟨"note6.md", ⟨2024, 1, 2, 3, 4, 5⟩, .ok ("")⟩]

/-- Two same-timestamp documents whose path hashes differ. -/
def c2pair : List MDFile :=
  [⟨"note1.md", ⟨2024, 1, 2, 3, 4, 5⟩, .ok ("")⟩,
   ⟨"note285.md", ⟨2024, 1, 2, 3, 4, 5⟩, .ok ("")⟩]

/-- Rendering of a leading reference run: each unit is a double-bracket
reference followed by its whitespace separator. -/
def renderUnits : List (List Char × List Char) → List Char
  | [] => []
  | (inner, ws) :: rest => '[' :: '[' :: (inner ++ ']' :: ']' :: (ws ++ renderUnits rest))

/-- Canonical rendering of a tag declaration tail: one space-separated
double-bracket reference per tag. -/
def renderTags : List (List Char) → List Char
  | [] => []
  | i :: rest => ' ' :: '[' :: '[' :: (i ++ ']' :: ']' :: renderTags rest)

/-- A one-document vault whose only document links to its own title. -/
def c3vault : List MDFile := [⟨"Foo.md", ⟨2024, 1, 2, 3, 4, 5⟩, .ok ("[[Foo]]")⟩]

/-- The note the exporter produces for that vault: it backlinks to itself. -/
def c3note : Note :=
  { id := "20240102030405", title := "Foo", type := "note", tags := [],
    path := "Foo.md", content := "[Foo](#n-20240102030405)",
    links := [{ targetId := "20240102030405", displayText := "Foo" }],
    backlinks := ["Foo"] }

/-- The id of the last entry of a path-to-id list whose derived title is T
(abstracts what survives the overwrite in the title-map loop). -/
def lastTitleId (T : String) : AList → Option String
  | [] => none
  | (fp, id) :: rest =>
    match lastTitleId T rest with
    | some i => some i
    | none => if parseName fp = T then some id else none

/-- Likewise for the case-insensitive map keyed by lowered titles. -/
def lastTitleIdCi (TL : String) : AList → Option String
  | [] => none
  | (fp, id) :: rest =>
    match lastTitleIdCi TL rest with
    | some i => some i
    | none => if jsToLower (parseName fp) = TL then some id else none

/-- A two-document vault whose first included document fails to read. -/
def c5vault : List MDFile :=
  [⟨"A.md", ⟨2024, 1, 2, 3, 4, 5⟩, .error ("EACCES")⟩,
   ⟨"B.md", ⟨2024, 1, 2, 3, 4, 6⟩, .ok ("hello")⟩]

/-- Per-vault maps of the rewriter built over the C5 vault. -/
def c5maps : FileMaps := buildFileMaps ("/vault") c5vault

/-! ## Map lemmas -/

theorem mget_mset (m : AList) (k v q : String) :
    mget (mset m k v) q = if k = q then some v else mget m q := by
  induction m with
  | nil => by_cases h : k = q <;> simp [mset, mget, h]
  | cons e rest ih =>
    obtain ⟨k0, v0⟩ := e
    by_cases h0 : k0 = k
    · subst h0
      by_cases h1 : k0 = q <;> simp [mset, mget, h1]
    · by_cases h1 : k0 = q
      · subst h1
        have h2 : ¬ k = k0 := fun hh => h0 hh.symm
        simp [mset, mget, h0, h2]
      · simp [mset, mget, h0, h1, ih]

theorem mhas_mset (m : AList) (k v q : String) :
    mhas (mset m k v) q = (k = q || mhas m q) := by
  by_cases h : k = q <;> simp [mhas, mget_mset, h]

theorem mset_eq_append (m : AList) (k v : String) (h : mget m k = none) :
    mset m k v = m ++ [(k, v)] := by
  induction m with
  | nil => simp [mset]
  | cons e rest ih =>
    obtain ⟨k0, v0⟩ := e
    by_cases h0 : k0 = k
    · subst h0; simp [mget] at h
    · simp [mget, h0] at h
      simp [mset, h0, ih h]

theorem mget_append (m1 m2 : AList) (q : String) :
    mget (m1 ++ m2) q = ((mget m1 q).rec (mget m2 q) (fun v => some v)) := by
  induction m1 with
  | nil => simp [mget]
  | cons e rest ih =>
    obtain ⟨k0, v0⟩ := e
    by_cases h0 : k0 = q <;> simp [mget, h0, ih]

/-! ## Scanner lemmas -/

theorem takeWhile_all_append (p : Char → Bool) (a : List Char) (x : Char)
    (r : List Char) (ha : ∀ c ∈ a, p c = true) (hx : p x = false) :
    (a ++ x :: r).takeWhile p = a := by
  induction a with
  | nil => simp [List.takeWhile_cons, hx]
  | cons c t ih =>
    simp [List.takeWhile_cons, ha c (List.mem_cons_self c t),
          ih (fun d hd => ha d (List.mem_cons_of_mem _ hd))]

theorem dropWhile_all_append (p : Char → Bool) (a : List Char) (x : Char)
    (r : List Char) (ha : ∀ c ∈ a, p c = true) (hx : p x = false) :
    (a ++ x :: r).dropWhile p = x :: r := by
  induction a with
  | nil => simp [List.dropWhile_cons, hx]
  | cons c t ih =>
    simp [List.dropWhile_cons, ha c (List.mem_cons_self c t),
          ih (fun d hd => ha d (List.mem_cons_of_mem _ hd))]

theorem isEmpty_false_of_ne {l : List Char} (h : l ≠ []) : l.isEmpty = false := by
  cases l with
  | nil => exact absurd rfl h
  | cons a b => rfl

theorem innerMatch_closed (inner r : List Char) (h1 : inner ≠ []) (h2 : ']' ∉ inner) :
    innerMatch (inner ++ ']' :: ']' :: r) = some (inner, r) := by
  unfold innerMatch
  rw [takeWhile_all_append _ inner ']' (']' :: r)
        (fun c hc => by simp; exact fun he => h2 (he ▸ hc)) (by simp),
      dropWhile_all_append _ inner ']' (']' :: r)
        (fun c hc => by simp; exact fun he => h2 (he ▸ hc)) (by simp)]
  simp [isEmpty_false_of_ne h1]

theorem tryWiki_none_head (c : Char) (rest : List Char)
    (h1 : c ≠ '[') (h2 : c ≠ '!') : tryWiki (c :: rest) = none := by
  have e1 : ['!', '[', '['].isPrefixOf (c :: rest) = false := by
    simp [List.isPrefixOf]
    intro h
    exact absurd h.symm h2
  have e2 : ['[', '['].isPrefixOf (c :: rest) = false := by
    simp [List.isPrefixOf]
    intro h
    exact absurd h.symm h1
  simp [tryWiki, e1, e2]

theorem tryWiki_none_of_no_lb (c : Char) (rest : List Char)
    (h : '[' ∉ c :: rest) : tryWiki (c :: rest) = none := by
  have hc : c ≠ '[' := fun hh => h (by simp [hh])
  by_cases hb : c = '!'
  · subst hb
    have e1 : ['!', '[', '['].isPrefixOf ('!' :: rest) = false := by
      cases rest with
      | nil => simp [List.isPrefixOf]
      | cons d rest2 =>
        have hd : d ≠ '[' := fun hh => h (by simp [hh])
        simp [List.isPrefixOf]
        intro h
        exact absurd h.symm hd
    have e2 : ['[', '['].isPrefixOf ('!' :: rest) = false := by
      simp [List.isPrefixOf]
    simp [tryWiki, e1, e2]
  · exact tryWiki_none_head c rest hc hb

theorem wikiScanAux_cons (f : Bool → List Char → List Char) (fuel : Nat)
    (c : Char) (rest : List Char) :
    wikiScanAux f (fuel + 1) (c :: rest) =
      (match tryWiki (c :: rest) with
       | some (img, inner, rest2) => f img inner ++ wikiScanAux f fuel rest2
       | none => c :: wikiScanAux f fuel rest) := rfl

theorem wikiScanAux_pass (f : Bool → List Char → List Char) (fuel : Nat)
    (l : List Char) (h : '[' ∉ l) : wikiScanAux f fuel l = l := by
  induction fuel generalizing l with
  | zero => rfl
  | succ n ih =>
    cases l with
    | nil => rfl
    | cons c rest =>
      rw [wikiScanAux_cons, tryWiki_none_of_no_lb c rest h]
      simp [ih rest (fun hh => h (List.mem_cons_of_mem _ hh))]

theorem wikiScanAux_pre (f : Bool → List Char → List Char) (p l : List Char)
    (hp : ∀ c ∈ p, c ≠ '[' ∧ c ≠ '!') (m : Nat) :
    wikiScanAux f (p.length + m) (p ++ l) = p ++ wikiScanAux f m l := by
  induction p with
  | nil => simp
  | cons c p2 ih =>
    have hc := hp c (List.mem_cons_self c p2)
    have harith : (c :: p2).length + m = (p2.length + m) + 1 := by
      simp [List.length_cons]; omega
    rw [harith, List.cons_append, wikiScanAux_cons, tryWiki_none_head c _ hc.1 hc.2]
    simp [ih (fun d hd => hp d (List.mem_cons_of_mem _ hd))]

theorem tryWiki_at_link (inner s : List Char) (h1 : inner ≠ []) (h2 : ']' ∉ inner) :
    tryWiki ('[' :: '[' :: (inner ++ ']' :: ']' :: s)) = some (false, inner, s) := by
  have e1 : ['!', '[', '['].isPrefixOf ('[' :: '[' :: (inner ++ ']' :: ']' :: s)) = false := by
    simp [List.isPrefixOf]
  have e2 : ['[', '['].isPrefixOf ('[' :: '[' :: (inner ++ ']' :: ']' :: s)) = true := by
    simp [List.isPrefixOf]
  simp [tryWiki, e1, e2, innerMatch_closed inner s h1 h2]

theorem tryWiki_at_img (inner s : List Char) (h1 : inner ≠ []) (h2 : ']' ∉ inner) :
    tryWiki ('!' :: '[' :: '[' :: (inner ++ ']' :: ']' :: s)) = some (true, inner, s) := by
  have e1 : ['!', '[', '['].isPrefixOf ('!' :: '[' :: '[' :: (inner ++ ']' :: ']' :: s)) = true := by
    simp [List.isPrefixOf]
  simp [tryWiki, e1, innerMatch_closed inner s h1 h2]

theorem wikiScanAux_link (f : Bool → List Char → List Char) (inner s : List Char)
    (m : Nat) (h1 : inner ≠ []) (h2 : ']' ∉ inner) (hs : '[' ∉ s) :
    wikiScanAux f (m + 1) ('[' :: '[' :: (inner ++ ']' :: ']' :: s)) =
      f false inner ++ s := by
  rw [wikiScanAux_cons, tryWiki_at_link inner s h1 h2]
  simp [wikiScanAux_pass f m s hs]

theorem wikiScanAux_img (f : Bool → List Char → List Char) (inner s : List Char)
    (m : Nat) (h1 : inner ≠ []) (h2 : ']' ∉ inner) (hs : '[' ∉ s) :
    wikiScanAux f (m + 1) ('!' :: '[' :: '[' :: (inner ++ ']' :: ']' :: s)) =
      f true inner ++ s := by
  rw [wikiScanAux_cons, tryWiki_at_img inner s h1 h2]
  simp [wikiScanAux_pass f m s hs]

theorem not_mem_of_all_plain {p : List Char} (hp : ∀ c ∈ p, c ≠ '[' ∧ c ≠ '!') :
    '[' ∉ p := fun h => (hp '[' h).1 rfl

/-- Decomposition of resolveLinks on a body holding a single non-image
reference surrounded by reference-free text. -/
theorem resolveLinks_decomp (tti ttci : AList) (p inner s : List Char)
    (hp : ∀ c ∈ p, c ≠ '[' ∧ c ≠ '!') (hs : '[' ∉ s)
    (h1 : inner ≠ []) (h2 : ']' ∉ inner) :
    resolveLinks (String.mk (p ++ ('[' :: '[' :: (inner ++ ']' :: ']' :: s)))) tti ttci =
      String.mk (p ++ (resolveOne tti ttci inner ++ s)) := by
  have key : ∀ m : Nat,
      wikiScanAux
        (fun img inn =>
          if img then '!' :: '[' :: '[' :: inn ++ [']', ']']
          else resolveOne tti ttci inn)
        (p.length + (m + 1)) (p ++ ('[' :: '[' :: (inner ++ ']' :: ']' :: s))) =
      p ++ (resolveOne tti ttci inner ++ s) := by
    intro m
    rw [wikiScanAux_pre _ p _ hp (m + 1),
        wikiScanAux_link _ inner s m h1 h2 hs]
    simp
  have hlen : (p ++ ('[' :: '[' :: (inner ++ ']' :: ']' :: s))).length =
      p.length + ((inner.length + s.length + 3) + 1) := by
    simp [List.length_append]; omega
  show String.mk (wikiScanAux _
      (p ++ ('[' :: '[' :: (inner ++ ']' :: ']' :: s))).length
      (p ++ ('[' :: '[' :: (inner ++ ']' :: ']' :: s)))) = _
  rw [hlen, key]

/-- Image references pass through resolveLinks unchanged. -/
theorem resolveLinks_img (tti ttci : AList) (p inner s : List Char)
    (hp : ∀ c ∈ p, c ≠ '[' ∧ c ≠ '!') (hs : '[' ∉ s)
    (h1 : inner ≠ []) (h2 : ']' ∉ inner) :
    resolveLinks (String.mk (p ++ ('!' :: '[' :: '[' :: (inner ++ ']' :: ']' :: s)))) tti ttci =
      String.mk (p ++ ('!' :: '[' :: '[' :: (inner ++ ']' :: ']' :: s))) := by
  have key : ∀ m : Nat,
      wikiScanAux
        (fun img inn =>
          if img then '!' :: '[' :: '[' :: inn ++ [']', ']']
          else resolveOne tti ttci inn)
        (p.length + (m + 1)) (p ++ ('!' :: '[' :: '[' :: (inner ++ ']' :: ']' :: s))) =
      p ++ ('!' :: '[' :: '[' :: (inner ++ ']' :: ']' :: s)) := by
    intro m
    rw [wikiScanAux_pre _ p _ hp (m + 1),
        wikiScanAux_img _ inner s m h1 h2 hs]
    simp
  have hlen : (p ++ ('!' :: '[' :: '[' :: (inner ++ ']' :: ']' :: s))).length =
      p.length + ((inner.length + s.length + 4) + 1) := by
    simp [List.length_append]; omega
  show String.mk (wikiScanAux _
      (p ++ ('!' :: '[' :: '[' :: (inner ++ ']' :: ']' :: s))).length
      (p ++ ('!' :: '[' :: '[' :: (inner ++ ']' :: ']' :: s)))) = _
  rw [hlen, key]

/-! ## split lemmas -/

theorem splitByAux_no_sep (sep : Char → Bool) (l acc : List Char)
    (h : ∀ c ∈ l, sep c = false) :
    splitByAux sep l acc = [acc.reverse ++ l] := by
  induction l generalizing acc with
  | nil => simp [splitByAux]
  | cons c rest ih =>
    have hc := h c (List.mem_cons_self c rest)
    rw [splitByAux, hc]
    simp only [Bool.false_eq_true, if_false]
    rw [ih (c :: acc) (fun d hd => h d (List.mem_cons_of_mem _ hd))]
    simp

theorem splitCh_no_sep (sep : Char) (l : List Char) (h : sep ∉ l) :
    splitCh sep l = [l] := by
  have := splitByAux_no_sep (fun c => c = sep) l []
    (fun c hc => by simp; intro he; exact h (he ▸ hc))
  simpa [splitCh, splitBy] using this

theorem splitByAux_sep_mid (sep : Char → Bool) (a b acc : List Char) (x : Char)
    (ha : ∀ c ∈ a, sep c = false) (hx : sep x = true) :
    splitByAux sep (a ++ x :: b) acc = (acc.reverse ++ a) :: splitByAux sep b [] := by
  induction a generalizing acc with
  | nil => simp [splitByAux, hx]
  | cons c rest ih =>
    have hc := ha c (List.mem_cons_self c rest)
    rw [List.cons_append, splitByAux, hc]
    simp only [Bool.false_eq_true, if_false]
    rw [ih (c :: acc) (fun d hd => ha d (List.mem_cons_of_mem _ hd))]
    simp

theorem splitCh_pair (sep : Char) (a b : List Char) (ha : sep ∉ a) (hb : sep ∉ b) :
    splitCh sep (a ++ sep :: b) = [a, b] := by
  have h1 := splitByAux_sep_mid (fun c => c = sep) a b [] sep
    (fun c hc => by simp; intro he; exact ha (he ▸ hc)) (by simp)
  have h2 := splitByAux_no_sep (fun c => c = sep) b []
    (fun c hc => by simp; intro he; exact hb (he ▸ hc))
  simp [splitCh, splitBy] at h1 h2 ⊢
  rw [h1, h2]

/-! ## resolveOne characterizations -/

theorem resolveOne_nopipe (tti ttci : AList) (target : List Char)
    (ht : jsTrimList target = target) (hne : target ≠ []) (hp : '|' ∉ target) :
    resolveOne tti ttci target =
      (match lookupId tti ttci (String.mk (parseNameList target)) with
       | some i => '[' :: '[' :: i.data ++ '|' :: parseNameList target ++ [']', ']']
       | none => '[' :: '[' :: target ++ [']', ']']) := by
  unfold resolveOne
  rw [splitCh_no_sep '|' target hp]
  simp only [List.headD_cons, ht]
  have hie : target.isEmpty = false := by
    cases target with
    | nil => exact absurd rfl hne
    | cons a b => rfl
  simp only [hie, Bool.false_eq_true, if_false]
  cases lookupId tti ttci (String.mk (parseNameList target)) <;> simp

theorem resolveOne_pipe (tti ttci : AList) (target display : List Char)
    (ht : jsTrimList target = target) (hne : target ≠ []) (hp : '|' ∉ target)
    (hd : jsTrimList display = display) (hdne : display ≠ []) (hdp : '|' ∉ display) :
    resolveOne tti ttci (target ++ '|' :: display) =
      (match lookupId tti ttci (String.mk (parseNameList target)) with
       | some i => '[' :: '[' :: i.data ++ '|' :: display ++ [']', ']']
       | none => '[' :: '[' :: (target ++ '|' :: display) ++ [']', ']']) := by
  unfold resolveOne
  rw [splitCh_pair '|' target display hp hdp]
  simp only [List.headD_cons, ht, hd]
  have hie : target.isEmpty = false := by
    cases target with
    | nil => exact absurd rfl hne
    | cons a b => rfl
  have hdie : display.isEmpty = false := by
    cases display with
    | nil => exact absurd rfl hdne
    | cons a b => rfl
  simp only [hie, hdie, Bool.false_eq_true, if_false]

/-! ## Claim C4 -/

/-- Claim C4: running the pipeline twice on the same inputs (same files,
same modification times, same enumeration order) produces outputs that
agree on everything except metadata.generatedAt; in particular the notes
arrays are identical. -/
theorem C4_export_deterministic (brainDir : String) (files : List MDFile)
    (excl : List String) (imap : Option AList) (t1 t2 : String) :
    exportBrain brainDir files excl imap t1 =
      (exportBrain brainDir files excl imap t2).map
        (fun o => { o with metadata := { o.metadata with generatedAt := t1 } }) := by
  simp only [exportBrain]
  cases hp : processIncluded brainDir (assignIds brainDir files)
      (buildTitleMaps (assignIds brainDir files)) imap
      (files.filter (fun f => !isExcluded f.relPath excl)) <;>
    simp [Except.map]

/-! ## Claim C5 -/

/-- Claim C5 (code bug): the exporter has no per-document recovery — the
failing read of the first document aborts the whole run with its error and
no output at all, while the rewriter variant of the same loop (the
behaviour the spec describes) skips the failing document and still
processes the remaining one. -/
theorem C5_failing_read_aborts_export :
    exportBrain ("/vault") c5vault [] none ("T") = .error ("EACCES") ∧
    (processFiles ("/vault") c5maps.titleToIdMap c5maps.idToTitleMap
        c5maps.fileIdCache c5vault).convertedCount = 1 ∧
    (processFiles ("/vault") c5maps.titleToIdMap c5maps.idToTitleMap
        c5maps.fileIdCache c5vault).outputs =
      [("B.md", "---\ntitle: B\nid: 20240102030406\ntype: undefined\n---\n\nhello")] :=
  ⟨rfl, rfl, rfl⟩

/-! ## Claim C1 -/

/-- Claim C1 (amended): for every non-image wikilink written with a reference-free
surrounding context, the resolver takes the base name of the target (path
segments and trailing extension stripped), looks it up case-sensitively
first and then case-insensitively, rewrites a hit to an id reference that
keeps an explicit display text and otherwise uses the written target
base name (which equals the matched title except possibly in letter case),
and leaves misses and image references byte-for-byte unchanged. -/
theorem C1_link_resolver (tti ttci : AList) (p s target display : List Char)
    (hp : ∀ c ∈ p, c ≠ '[' ∧ c ≠ '!') (hs : '[' ∉ s)
    (ht : jsTrimList target = target) (htne : target ≠ [])
    (htb : ']' ∉ target) (htp : '|' ∉ target)
    (hd : jsTrimList display = display) (hdne : display ≠ [])
    (hdb : ']' ∉ display) (hdp : '|' ∉ display) :
    (∀ i, mget tti (String.mk (parseNameList target)) = some i →
      lookupId tti ttci (String.mk (parseNameList target)) = some i) ∧
    (mget tti (String.mk (parseNameList target)) = none →
      lookupId tti ttci (String.mk (parseNameList target)) =
        mget ttci (jsToLower (String.mk (parseNameList target)))) ∧
    (∀ i, lookupId tti ttci (String.mk (parseNameList target)) = some i →
      resolveLinks (String.mk (p ++ ('[' :: '[' :: (target ++ ']' :: ']' :: s)))) tti ttci =
        String.mk (p ++ (('[' :: '[' :: i.data) ++
          ('|' :: (parseNameList target ++ (']' :: ']' :: s)))))) ∧
    (∀ i, lookupId tti ttci (String.mk (parseNameList target)) = some i →
      resolveLinks (String.mk (p ++ ('[' :: '[' ::
          ((target ++ '|' :: display) ++ ']' :: ']' :: s)))) tti ttci =
        String.mk (p ++ (('[' :: '[' :: i.data) ++
          ('|' :: (display ++ (']' :: ']' :: s)))))) ∧
    (lookupId tti ttci (String.mk (parseNameList target)) = none →
      resolveLinks (String.mk (p ++ ('[' :: '[' :: (target ++ ']' :: ']' :: s)))) tti ttci =
        String.mk (p ++ ('[' :: '[' :: (target ++ ']' :: ']' :: s))) ∧
      resolveLinks (String.mk (p ++ ('[' :: '[' ::
          ((target ++ '|' :: display) ++ ']' :: ']' :: s)))) tti ttci =
        String.mk (p ++ ('[' :: '[' :: ((target ++ '|' :: display) ++ ']' :: ']' :: s)))) ∧
    resolveLinks (String.mk (p ++ ('!' :: '[' :: '[' :: (target ++ ']' :: ']' :: s)))) tti ttci =
      String.mk (p ++ ('!' :: '[' :: '[' :: (target ++ ']' :: ']' :: s))) := by
  have hpipene : target ++ '|' :: display ≠ [] := by simp
  have hpipebr : ']' ∉ target ++ '|' :: display := by
    intro h
    rcases List.mem_append.mp h with h1 | h1
    · exact htb h1
    · rcases List.mem_cons.mp h1 with h2 | h2
      · exact absurd h2 (by decide)
      · exact hdb h2
  refine ⟨?_, ?_, ?_, ?_, ?_, ?_⟩
  · intro i h; simp [lookupId, h]
  · intro h; simp [lookupId, h]
  · intro i h
    rw [resolveLinks_decomp tti ttci p target s hp hs htne htb,
        resolveOne_nopipe tti ttci target ht htne htp, h]
    simp
  · intro i h
    rw [resolveLinks_decomp tti ttci p (target ++ '|' :: display) s hp hs hpipene hpipebr,
        resolveOne_pipe tti ttci target display ht htne htp hd hdne hdp, h]
    simp
  · intro h
    constructor
    · rw [resolveLinks_decomp tti ttci p target s hp hs htne htb,
          resolveOne_nopipe tti ttci target ht htne htp, h]
      simp
    · rw [resolveLinks_decomp tti ttci p (target ++ '|' :: display) s hp hs hpipene hpipebr,
          resolveOne_pipe tti ttci target display ht htne htp hd hdne hdp, h]
      simp
  · exact resolveLinks_img tti ttci p target s hp hs htne htb

/-- Claim C1 counterexample: a vault with one document titled Foo; the
link written [[foo]] resolves through the case-insensitive lookup, but its
display text is the written text foo, not the matched title Foo that the
claim prescribes. -/
theorem C1_counterexample :
    resolveLinks ("[[foo]]")
        (buildTitleMaps [("/v/Foo.md", "20240102030405")]).titleToId
        (buildTitleMaps [("/v/Foo.md", "20240102030405")]).titleToIdCi =
      "[[20240102030405|foo]]" ∧
    resolveLinks ("[[foo]]")
        (buildTitleMaps [("/v/Foo.md", "20240102030405")]).titleToId
        (buildTitleMaps [("/v/Foo.md", "20240102030405")]).titleToIdCi ≠
      "[[20240102030405|Foo]]" := by
  constructor
  · decide
  · decide

/-- Claim C1 witness: the amended theorem applied to a concrete vault map
and the link [[dir/Doc.md]], whose base name Doc resolves case-sensitively. -/
theorem C1_witness :
    resolveLinks (String.mk ("x ".data ++ ('[' :: '[' ::
        ("dir/Doc.md".data ++ ']' :: ']' :: " y".data))))
        [("Doc", "20240101000000")] [("doc", "20240101000000")] =
      String.mk ("x ".data ++ (('[' :: '[' :: "20240101000000".data) ++
        ('|' :: (parseNameList ("dir/Doc.md").data ++ (']' :: ']' :: " y".data))))) :=
  ((C1_link_resolver [("Doc", "20240101000000")] [("doc", "20240101000000")]
      "x ".data (" y").data ("dir/Doc.md").data ("D").data
      (by decide) (by decide) (by decide) (by decide) (by decide) (by decide)
      (by decide) (by decide) (by decide) (by decide)).2.2.1)
    "20240101000000" (by decide)

/-! ## Claim C10 -/

theorem buildTitleMapsAux_titleToId (l : AList) (maps : TitleMaps) (T : String) :
    mget (buildTitleMapsAux l maps).titleToId T =
      (match lastTitleId T l with
       | some i => some i
       | none => mget maps.titleToId T) := by
  induction l generalizing maps with
  | nil => simp [buildTitleMapsAux, lastTitleId]
  | cons e rest ih =>
    obtain ⟨fp, id⟩ := e
    rw [buildTitleMapsAux, ih]
    cases h : lastTitleId T rest with
    | some i => simp [lastTitleId, h]
    | none =>
      simp only [lastTitleId, h, mget_mset]
      by_cases hT : parseName fp = T <;> simp [hT]

theorem buildTitleMapsAux_titleToIdCi (l : AList) (maps : TitleMaps) (TL : String) :
    mget (buildTitleMapsAux l maps).titleToIdCi TL =
      (match lastTitleIdCi TL l with
       | some i => some i
       | none => mget maps.titleToIdCi TL) := by
  induction l generalizing maps with
  | nil => simp [buildTitleMapsAux, lastTitleIdCi]
  | cons e rest ih =>
    obtain ⟨fp, id⟩ := e
    rw [buildTitleMapsAux, ih]
    cases h : lastTitleIdCi TL rest with
    | some i => simp [lastTitleIdCi, h]
    | none =>
      simp only [lastTitleIdCi, h, mget_mset]
      by_cases hT : jsToLower (parseName fp) = TL <;> simp [hT]

/-- Claim C10 (confirmed): when discovered documents share a title T, the
title maps keep only the id of the last-discovered one; both the
case-sensitive and case-insensitive lookups of T return that id, no other
id is reachable by looking up T, and a wikilink [[T]] written in any
document body (also in the earlier same-titled documents) resolves to the
last-discovered id. -/
theorem C10_duplicate_title_last_wins (l : AList) (T i2 : String)
    (h2 : lastTitleId T l = some i2)
    (hci : lastTitleIdCi (jsToLower T) l = some i2)
    (ht : jsTrimList T.data = T.data) (htne : T.data ≠ [])
    (htb : ']' ∉ T.data) (htp : '|' ∉ T.data)
    (hpn : parseNameList T.data = T.data) :
    mget (buildTitleMaps l).titleToId T = some i2 ∧
    mget (buildTitleMaps l).titleToIdCi (jsToLower T) = some i2 ∧
    (∀ i1, i1 ≠ i2 →
      mget (buildTitleMaps l).titleToId T ≠ some i1 ∧
      mget (buildTitleMaps l).titleToIdCi (jsToLower T) ≠ some i1) ∧
    resolveLinks (String.mk ('[' :: '[' :: (T.data ++ [']', ']'])))
        (buildTitleMaps l).titleToId (buildTitleMaps l).titleToIdCi =
      String.mk (('[' :: '[' :: i2.data) ++ ('|' :: (T.data ++ [']', ']']))) := by
  have hcs : mget (buildTitleMaps l).titleToId T = some i2 := by
    rw [buildTitleMaps, buildTitleMapsAux_titleToId, h2]
  have hcsl : mget (buildTitleMaps l).titleToIdCi (jsToLower T) = some i2 := by
    rw [buildTitleMaps, buildTitleMapsAux_titleToIdCi, hci]
  refine ⟨hcs, hcsl, ?_, ?_⟩
  · intro i1 h1
    constructor
    · rw [hcs]; intro hcon; exact h1 (Option.some.injEq .. ▸ hcon ▸ rfl)
    · rw [hcsl]; intro hcon; exact h1 (Option.some.injEq .. ▸ hcon ▸ rfl)
  · have hdec := resolveLinks_decomp (buildTitleMaps l).titleToId
      (buildTitleMaps l).titleToIdCi [] T.data [] (by simp) (by simp) htne htb
    have hres := resolveOne_nopipe (buildTitleMaps l).titleToId
      (buildTitleMaps l).titleToIdCi T.data ht htne htp
    have hlk : lookupId (buildTitleMaps l).titleToId (buildTitleMaps l).titleToIdCi
        (String.mk (parseNameList T.data)) = some i2 := by
      rw [hpn]
      show lookupId _ _ (String.mk T.data) = some i2
      have : String.mk T.data = T := rfl
      rw [this]
      simp [lookupId, hcs]
    rw [hlk] at hres
    simp only [List.nil_append, List.append_nil] at hdec
    have h3 : T.data ++ ']' :: ']' :: ([] : List Char) = T.data ++ [']', ']'] := by simp
    rw [h3] at hdec
    rw [hdec, hres]
    simp [hpn]

/-- Claim C10 witness: two documents both titled Foo; every lookup and the
link [[Foo]] resolve to the id of the later one. -/
theorem C10_witness :
    lastTitleId ("Foo") [("/v/Foo.md", "20240101000000"), ("/v/sub/Foo.md", "20240102000000")] =
      some ("20240102000000") ∧
    (mget (buildTitleMaps [("/v/Foo.md", "20240101000000"),
        ("/v/sub/Foo.md", "20240102000000")]).titleToId ("Foo") = some ("20240102000000") ∧
     mget (buildTitleMaps [("/v/Foo.md", "20240101000000"),
        ("/v/sub/Foo.md", "20240102000000")]).titleToIdCi (jsToLower ("Foo")) =
       some ("20240102000000") ∧
     (∀ i1, i1 ≠ "20240102000000" →
       mget (buildTitleMaps [("/v/Foo.md", "20240101000000"),
          ("/v/sub/Foo.md", "20240102000000")]).titleToId ("Foo") ≠ some i1 ∧
       mget (buildTitleMaps [("/v/Foo.md", "20240101000000"),
          ("/v/sub/Foo.md", "20240102000000")]).titleToIdCi (jsToLower ("Foo")) ≠ some i1) ∧
     resolveLinks (String.mk ('[' :: '[' :: ("Foo".data ++ [']', ']'])))
        (buildTitleMaps [("/v/Foo.md", "20240101000000"),
          ("/v/sub/Foo.md", "20240102000000")]).titleToId
        (buildTitleMaps [("/v/Foo.md", "20240101000000"),
          ("/v/sub/Foo.md", "20240102000000")]).titleToIdCi =
       String.mk (('[' :: '[' :: "20240102000000".data) ++ ('|' :: ("Foo".data ++ [']', ']'])))) :=
  ⟨by decide,
   C10_duplicate_title_last_wins
     [("/v/Foo.md", "20240101000000"), ("/v/sub/Foo.md", "20240102000000")]
     "Foo" "20240102000000" (by decide) (by decide) (by decide) (by decide)
     (by decide) (by decide) (by decide)⟩

/-! ## Claim C3 -/

theorem backlinksFor_mem (ns : List Note) (tid b : String)
    (h : b ∈ backlinksFor ns tid) :
    ∃ m ∈ ns, m.title = b ∧ ∃ link ∈ m.links, link.targetId = tid := by
  unfold backlinksFor at h
  rcases List.mem_flatMap.mp h with ⟨m, hm, hb⟩
  rcases List.mem_map.mp hb with ⟨lk, hlk, hbt⟩
  rcases List.mem_filter.mp hlk with ⟨hlk1, hlk2⟩
  exact ⟨m, hm, hbt, lk, hlk1, by simpa using hlk2⟩

theorem attachBacklinks_sound (ns : List Note) :
    ∀ n ∈ attachBacklinks ns, ∀ b ∈ n.backlinks,
    ∃ m ∈ attachBacklinks ns, m.title = b ∧ ∃ link ∈ m.links, link.targetId = n.id := by
  intro n hn b hb
  unfold attachBacklinks at hn
  rcases List.mem_map.mp hn with ⟨n0, hn0, hEq⟩
  rcases backlinksFor_mem ns n0.id b (by
    have : n.backlinks = backlinksFor ns n0.id := by rw [← hEq]
    exact this ▸ hb) with ⟨m, hm, htt, lk, hlk, htid⟩
  refine ⟨{ m with backlinks := backlinksFor ns m.id }, ?_, ?_, lk, ?_, ?_⟩
  · exact List.mem_map.mpr ⟨m, hm, rfl⟩
  · exact htt
  · exact hlk
  · rw [htid, ← hEq]

/-- Claim C3 (amended): every entry of the backlinks of a note is the title of
some included note m whose links hit the id of the note (m may be the note
itself: a self-link produces a self-backlink), and excluded documents
contribute no backlink entries because the index is computed over the
included notes only. -/
theorem C3_backlinks_from_links (brainDir : String) (files : List MDFile)
    (excl : List String) (imap : Option AList) (t : String) :
    ∀ n ∈ notesOf (exportBrain brainDir files excl imap t),
    ∀ b ∈ n.backlinks,
    ∃ m ∈ notesOf (exportBrain brainDir files excl imap t),
      m.title = b ∧ ∃ link ∈ m.links, link.targetId = n.id := by
  intro n hn b hb
  revert hn
  simp only [notesOf, exportBrain]
  cases hq : processIncluded brainDir (assignIds brainDir files)
      (buildTitleMaps (assignIds brainDir files)) imap
      (files.filter (fun f => !isExcluded f.relPath excl)) with
  | error e => intro hn; exact absurd hn (by simp)
  | ok ns0 =>
    intro hn
    exact attachBacklinks_sound ns0 n hn b hb

/-- Claim C3 counterexample: in the one-document vault whose document
links to itself, the only note carries the backlink entry Foo, which is
its own title — there is no OTHER note accounting for it, refuting the
claim as stated. -/
theorem C3_counterexample :
    ¬ (∀ n ∈ notesOf (exportBrain ("/vault") c3vault [] none ("T")),
       ∀ b ∈ n.backlinks,
       ∃ m ∈ notesOf (exportBrain ("/vault") c3vault [] none ("T")),
         m ≠ n ∧ m.title = b ∧ ∃ link ∈ m.links, link.targetId = n.id) := by
  decide

/-- Claim C3 witness: the amended theorem applied to the concrete
self-link vault and its concrete note. -/
theorem C3_witness :
    (c3note ∈ notesOf (exportBrain ("/vault") c3vault [] none ("T")) ∧
     "Foo" ∈ c3note.backlinks) ∧
    (∃ m ∈ notesOf (exportBrain ("/vault") c3vault [] none ("T")),
      m.title = "Foo" ∧ ∃ link ∈ m.links, link.targetId = c3note.id) :=
  ⟨⟨by decide, by decide⟩,
   C3_backlinks_from_links ("/vault") c3vault [] none ("T") c3note (by decide) "Foo" (by decide)⟩

/-! ## Claim C7 -/

theorem intercalate_single (sep a : List Char) :
    List.intercalate sep [a] = a := by
  simp [List.intercalate]

theorem intercalate_cons_two (sep a b : List Char) (rest : List (List Char)) :
    List.intercalate sep (a :: b :: rest) = a ++ sep ++ List.intercalate sep (b :: rest) := by
  simp [List.intercalate, List.intersperse]

theorem splitCh_cons_mid (sep : Char) (a b : List Char) (ha : sep ∉ a) :
    splitCh sep (a ++ sep :: b) = a :: splitCh sep b := by
  have h := splitByAux_sep_mid (fun c => c = sep) a b [] sep
    (fun c hc => by simp; intro he; exact ha (he ▸ hc)) (by simp)
  simpa [splitCh, splitBy] using h

theorem splitCh_join (sep : Char) (segs : List (List Char)) (hne : segs ≠ [])
    (h : ∀ seg ∈ segs, sep ∉ seg) :
    splitCh sep (List.intercalate [sep] segs) = segs := by
  induction segs with
  | nil => exact absurd rfl hne
  | cons a rest ih =>
    cases rest with
    | nil =>
      rw [intercalate_single]
      exact splitCh_no_sep sep a (h a (List.mem_cons_self a []))
    | cons b rest2 =>
      rw [intercalate_cons_two]
      have ha := h a (List.mem_cons_self a (b :: rest2))
      have step : a ++ [sep] ++ List.intercalate [sep] (b :: rest2) =
          a ++ sep :: List.intercalate [sep] (b :: rest2) := by simp
      rw [step, splitCh_cons_mid sep a _ ha,
          ih (by simp) (fun seg hs => h seg (List.mem_cons_of_mem _ hs))]

/-- Claim C7 (confirmed): the type is the first tag lower-cased and
whitespace-hyphenated when that tag exists and is not the root tag;
otherwise it is the immediate parent folder name treated the same way, or
the fixed default type for documents at the vault root.  An untagged
document at projects/alpha/notes.md gets type alpha. -/
theorem C7_record_type :
    (∀ (t : String) (rest : List String) (relPath : String), t ≠ SECOND_BRAIN_TAG →
      recordType (t :: rest) relPath = hyphenateWs (jsToLower t)) ∧
    (∀ (rest : List String) (relPath : String),
      recordType (SECOND_BRAIN_TAG :: rest) relPath = pathType relPath) ∧
    (∀ relPath : String, recordType [] relPath = pathType relPath) ∧
    (∀ segs : List (List Char), 1 < segs.length → (∀ seg ∈ segs, '/' ∉ seg) →
      pathType (String.mk (List.intercalate ['/'] segs)) =
        hyphenateWs (jsToLower (String.mk (segs.getD (segs.length - 2) [])))) ∧
    (∀ seg : List Char, '/' ∉ seg → pathType (String.mk seg) = DEFAULT_RECORD_TYPE) ∧
    recordType [] "projects/alpha/notes.md" = "alpha" ∧
    recordType ["Machine  Learning"] "anything.md" = "machine-learning" ∧
    recordType ["Second Brain"] "projects/alpha/notes.md" = "alpha" := by
  refine ⟨?_, ?_, ?_, ?_, ?_, by decide, by decide, by decide⟩
  · intro t rest relPath ht
    simp [recordType, ht]
  · intro rest relPath
    simp [recordType]
  · intro relPath
    simp [recordType]
  · intro segs hlen hsep
    have hne : segs ≠ [] := by
      intro h; rw [h] at hlen; simp at hlen
    unfold pathType
    rw [show (String.mk (List.intercalate ['/'] segs)).data = List.intercalate ['/'] segs from rfl,
        splitCh_join '/' segs hne hsep]
    simp [hlen]
  · intro seg hsep
    unfold pathType
    rw [show (String.mk seg).data = seg from rfl, splitCh_no_sep '/' seg hsep]
    simp

/-- Claim C7 witness: the characterization applied at a tagged document
and at the untagged three-segment path. -/
theorem C7_witness :
    recordType ["DevOps"] "x/y.md" = hyphenateWs (jsToLower ("DevOps")) ∧
    pathType (String.mk (List.intercalate ['/']
        ["projects".data, "alpha".data, "notes.md".data])) =
      hyphenateWs (jsToLower (String.mk
        (["projects".data, "alpha".data, "notes.md".data].getD 1 []))) :=
  ⟨C7_record_type.1 ("DevOps") [] "x/y.md" (by decide),
   C7_record_type.2.2.2.1 ["projects".data, "alpha".data, "notes.md".data]
     (by decide) (by decide)⟩

/-! ## Claim C9 -/

theorem splitByAux_ne_nil (sep : Char → Bool) (l acc : List Char) :
    splitByAux sep l acc ≠ [] := by
  induction l generalizing acc with
  | nil => simp [splitByAux]
  | cons c rest ih =>
    rw [splitByAux]
    by_cases hc : sep c <;> simp [hc, ih]

theorem intercalate_splitByAux (sep : Char) (l acc : List Char) :
    List.intercalate [sep] (splitByAux (fun c => c = sep) l acc) = acc.reverse ++ l := by
  induction l generalizing acc with
  | nil => simp [splitByAux, intercalate_single]
  | cons c rest ih =>
    by_cases hc : c = sep
    · subst hc
      obtain ⟨h0, t0, hsplit⟩ : ∃ h0 t0,
          splitByAux (fun d => d = c) rest [] = h0 :: t0 := by
        cases hsp : splitByAux (fun d => d = c) rest [] with
        | nil => exact absurd hsp (splitByAux_ne_nil _ rest [])
        | cons a b => exact ⟨a, b, rfl⟩
      have hrt := ih []
      rw [hsplit] at hrt
      simp only [List.reverse_nil, List.nil_append] at hrt
      simp [splitByAux, hsplit, intercalate_cons_two, hrt]
    · simp [splitByAux, hc, ih (c :: acc)]

theorem intercalate_splitCh (sep : Char) (l : List Char) :
    List.intercalate [sep] (splitCh sep l) = l := by
  simpa using intercalate_splitByAux sep l []

theorem isPrefixOf_append_self (p x : List Char) : p.isPrefixOf (p ++ x) = true := by
  induction p with
  | nil => simp [List.isPrefixOf]
  | cons c rest ih => simp [List.isPrefixOf, ih]

theorem tagMatchesAux_cons (fuel : Nat) (c : Char) (rest : List Char) :
    tagMatchesAux (fuel + 1) (c :: rest) =
      (if ['[', '['].isPrefixOf (c :: rest) then
        match innerMatch rest.tail with
        | some (inner, rest2) => inner :: tagMatchesAux fuel rest2
        | none => tagMatchesAux fuel rest
      else tagMatchesAux fuel rest) := rfl

theorem tagMatchesAux_pass (fuel : Nat) (l : List Char) (h : '[' ∉ l) :
    tagMatchesAux fuel l = [] := by
  induction fuel generalizing l with
  | zero => rfl
  | succ n ih =>
    cases l with
    | nil => rfl
    | cons c rest =>
      have hc : c ≠ '[' := fun hh => h (by simp [hh])
      rw [tagMatchesAux_cons]
      have hpre : ['[', '['].isPrefixOf (c :: rest) = false := by
        simp [List.isPrefixOf]
        intro hcc
        exact absurd hcc.symm hc
      rw [hpre]
      simp [ih rest (fun hh => h (List.mem_cons_of_mem _ hh))]

theorem tagMatchesAux_pre (p l : List Char) (hp : '[' ∉ p) (m : Nat) :
    tagMatchesAux (p.length + m) (p ++ l) = tagMatchesAux m l := by
  induction p with
  | nil => simp
  | cons c p2 ih =>
    have hc : c ≠ '[' := fun hh => hp (by simp [hh])
    have harith : (c :: p2).length + m = (p2.length + m) + 1 := by
      simp [List.length_cons]; omega
    rw [harith, List.cons_append, tagMatchesAux_cons]
    have hpre : ['[', '['].isPrefixOf (c :: (p2 ++ l)) = false := by
      simp [List.isPrefixOf]
      intro hcc
      exact absurd hcc.symm hc
    rw [hpre]
    simp [ih (fun hh => hp (List.mem_cons_of_mem _ hh))]

theorem tagMatchesAux_render (inners : List (List Char)) : ∀ fuel : Nat,
    (renderTags inners).length ≤ fuel →
    (∀ i ∈ inners, i ≠ [] ∧ ']' ∉ i) →
    tagMatchesAux fuel (renderTags inners) = inners := by
  induction inners with
  | nil =>
    intro fuel _ _
    cases fuel <;> rfl
  | cons i rest ih =>
    intro fuel hfuel hin
    have hi := hin i (List.mem_cons_self i rest)
    have hlen : (renderTags (i :: rest)).length =
        5 + i.length + (renderTags rest).length := by
      simp [renderTags, List.length_append]; omega
    obtain ⟨f, rfl⟩ : ∃ f, fuel = (f + 1) + 1 := by
      refine ⟨fuel - 2, ?_⟩
      rw [hlen] at hfuel
      omega
    show tagMatchesAux ((f + 1) + 1)
        (' ' :: ('[' :: '[' :: (i ++ ']' :: ']' :: renderTags rest))) = i :: rest
    rw [tagMatchesAux_cons]
    have hpre1 : ['[', '['].isPrefixOf
        (' ' :: ('[' :: '[' :: (i ++ ']' :: ']' :: renderTags rest))) = false := by
      simp [List.isPrefixOf]
    rw [hpre1]
    simp only [Bool.false_eq_true, if_false]
    rw [tagMatchesAux_cons]
    have hpre2 : ['[', '['].isPrefixOf
        ('[' :: '[' :: (i ++ ']' :: ']' :: renderTags rest)) = true := by
      simp [List.isPrefixOf]
    rw [hpre2]
    simp only [if_true, List.tail_cons]
    rw [innerMatch_closed i (renderTags rest) hi.1 hi.2]
    show i :: tagMatchesAux f (renderTags rest) = i :: rest
    have hftail : (renderTags rest).length ≤ f := by
      rw [hlen] at hfuel; omega
    rw [ih f hftail (fun j hj => hin j (List.mem_cons_of_mem _ hj))]

theorem renderTags_no_nl (inners : List (List Char))
    (h : ∀ i ∈ inners, '\n' ∉ i) : '\n' ∉ renderTags inners := by
  induction inners with
  | nil => simp [renderTags]
  | cons i rest ih =>
    simp only [renderTags]
    intro hmem
    rcases List.mem_cons.mp hmem with he | hmem2
    · exact absurd he (by decide)
    rcases List.mem_cons.mp hmem2 with he | hmem3
    · exact absurd he (by decide)
    rcases List.mem_cons.mp hmem3 with he | hmem4
    · exact absurd he (by decide)
    rcases List.mem_append.mp hmem4 with he | hmem5
    · exact h i (List.mem_cons_self i rest) he
    rcases List.mem_cons.mp hmem5 with he | hmem6
    · exact absurd he (by decide)
    rcases List.mem_cons.mp hmem6 with he | hmem7
    · exact absurd he (by decide)
    · exact ih (fun j hj => h j (List.mem_cons_of_mem _ hj)) hmem7

/-- extractTags on a body whose first line carries the tag marker. -/
theorem extractTags_marker_line (line bodyRest : List Char) (hnl : '\n' ∉ line)
    (hpre : TAG_MARKER.data.isPrefixOf line = true) :
    extractTags (String.mk (line ++ '\n' :: bodyRest)) =
      ⟨(tagMatchesAux line.length line).map String.mk,
       String.mk (bodyRest.dropWhile (fun c => c = '\n'))⟩ := by
  unfold extractTags
  rw [show (String.mk (line ++ '\n' :: bodyRest)).data =
      line ++ '\n' :: bodyRest from rfl]
  rw [splitCh_cons_mid '\n' line bodyRest hnl]
  show (if TAG_MARKER.data.isPrefixOf line then
        (⟨(tagMatchesAux line.length line).map String.mk,
          String.mk ((List.intercalate ['\n'] (splitCh '\n' bodyRest)).dropWhile
            (fun c => c = '\n'))⟩ : TagsResult)
      else ⟨[], String.mk (line ++ '\n' :: bodyRest)⟩) = _
  rw [if_pos hpre, intercalate_splitCh '\n' bodyRest]

/-- extractTags on a body whose first line does not carry the marker. -/
theorem extractTags_nomarker (content : String)
    (hpre : TAG_MARKER.data.isPrefixOf ((splitCh '\n' content.data).headD []) = false) :
    extractTags content = ⟨[], content⟩ := by
  unfold extractTags
  cases hsp : splitCh '\n' content.data with
  | nil => rfl
  | cons l0 rest =>
    rw [hsp] at hpre
    simp only [List.headD_cons] at hpre
    show (if TAG_MARKER.data.isPrefixOf l0 then
          (⟨(tagMatchesAux l0.length l0).map String.mk,
            String.mk ((List.intercalate ['\n'] rest).dropWhile
              (fun c => c = '\n'))⟩ : TagsResult)
        else ⟨[], content⟩) = _
    rw [if_neg (by rw [hpre]; exact Bool.false_ne_true)]

/-- Claim C9 (amended): the tag line is recognized and removed based on
its fixed prefix alone; the tags are the bracketed references on it (in
order, possibly none), and the line plus the immediately following empty
lines are removed.  When the first line does not carry the prefix the tag
list is empty and the body is unchanged. -/
theorem C9_extract_tags :
    (∀ content : String,
      TAG_MARKER.data.isPrefixOf ((splitCh '\n' content.data).headD []) = false →
      extractTags content = ⟨[], content⟩) ∧
    (∀ (inners : List (List Char)) (bodyRest : List Char),
      (∀ i ∈ inners, i ≠ [] ∧ ']' ∉ i ∧ '\n' ∉ i) →
      extractTags (String.mk (("Tags:".data ++ renderTags inners) ++ '\n' :: bodyRest)) =
        ⟨inners.map String.mk, String.mk (bodyRest.dropWhile (fun c => c = '\n'))⟩) ∧
    (∀ (junk bodyRest : List Char), '[' ∉ junk → '\n' ∉ junk →
      extractTags (String.mk (("Tags:".data ++ junk) ++ '\n' :: bodyRest)) =
        ⟨[], String.mk (bodyRest.dropWhile (fun c => c = '\n'))⟩) := by
  refine ⟨extractTags_nomarker, ?_, ?_⟩
  · intro inners bodyRest hin
    have hnl : '\n' ∉ "Tags:".data ++ renderTags inners := by
      intro hmem
      rcases List.mem_append.mp hmem with he | he
      · exact absurd he (by decide)
      · exact renderTags_no_nl inners (fun i hi => (hin i hi).2.2) he
    have hpre : TAG_MARKER.data.isPrefixOf ("Tags:".data ++ renderTags inners) = true := by
      rw [show TAG_MARKER.data = "Tags:".data from rfl]
      exact isPrefixOf_append_self ("Tags:").data (renderTags inners)
    rw [extractTags_marker_line _ bodyRest hnl hpre]
    have htags : tagMatchesAux ("Tags:".data ++ renderTags inners).length
        ("Tags:".data ++ renderTags inners) = inners := by
      rw [show ("Tags:".data ++ renderTags inners).length =
          "Tags:".data.length + (renderTags inners).length from by
            simp [List.length_append]; omega]
      rw [tagMatchesAux_pre ("Tags:").data (renderTags inners) (by decide) _]
      exact tagMatchesAux_render inners _ (Nat.le_refl _)
        (fun i hi => ⟨(hin i hi).1, (hin i hi).2.1⟩)
    rw [htags]
  · intro junk bodyRest hlb hnl0
    have hnl : '\n' ∉ "Tags:".data ++ junk := by
      intro hmem
      rcases List.mem_append.mp hmem with he | he
      · exact absurd he (by decide)
      · exact hnl0 he
    have hpre : TAG_MARKER.data.isPrefixOf ("Tags:".data ++ junk) = true := by
      rw [show TAG_MARKER.data = "Tags:".data from rfl]
      exact isPrefixOf_append_self ("Tags:").data junk
    rw [extractTags_marker_line _ bodyRest hnl hpre]
    have htags : tagMatchesAux ("Tags:".data ++ junk).length
        ("Tags:".data ++ junk) = [] := by
      rw [show ("Tags:".data ++ junk).length =
          "Tags:".data.length + junk.length from by simp [List.length_append]; omega]
      rw [tagMatchesAux_pre ("Tags:").data junk (by decide) _]
      exact tagMatchesAux_pass _ junk hlb
    rw [htags]
    rfl

/-- Claim C9 counterexample: a first line carrying the prefix but no
bracketed reference does not match the claimed declaration pattern, yet
the code still removes it: the tag list stays empty and the body changed. -/
theorem C9_counterexample :
    (extractTags ("Tags: none\nbody")).tags = [] ∧
    (extractTags ("Tags: none\nbody")).content = "body" ∧
    (extractTags ("Tags: none\nbody")).content ≠ "Tags: none\nbody" := by
  refine ⟨by decide, by decide, by decide⟩

/-- Claim C9 witness: the amended characterization applied to a concrete
two-tag declaration line followed by a blank line and text. -/
theorem C9_witness :
    extractTags (String.mk (("Tags:".data ++
        renderTags ["Second Brain".data, "DevOps".data]) ++ '\n' :: "\nText".data)) =
      ⟨["Second Brain".data, "DevOps".data].map String.mk,
       String.mk ("\nText".data.dropWhile (fun c => c = '\n'))⟩ :=
  C9_extract_tags.2.1 ["Second Brain".data, "DevOps".data] "\nText".data (by decide)

/-! ## Claim C8 -/

/-- Claim C8 (amended): when the first tag exists and is not the root tag,
a link to the note titled by that tag is prepended only when a note with that title
exists; the display text is the title recorded for the matched id, and the
raw-tag fallback fires only when the id-to-title map has no entry for it
(which cannot happen in the exporter, where both maps are built from the
same pass).  When both the root-tag link and the first-tag link fire, they
are joined by a single space, followed by a blank line and the trimmed
body. -/
theorem C8_category_linker (c : String) (t0 : String) (rest : List String)
    (tti itt : AList) (id : String) :
    (SECOND_BRAIN_TAG ∉ t0 :: rest → t0 ≠ "" → t0 ≠ SECOND_BRAIN_TAG →
      mget tti t0 = none →
      addCategoryLinks c (t0 :: rest) id tti itt = c) ∧
    (∀ catId ttl, SECOND_BRAIN_TAG ∉ t0 :: rest → t0 ≠ "" → t0 ≠ SECOND_BRAIN_TAG →
      mget tti t0 = some catId → catId ≠ id →
      containsStr c ("[[" ++ catId) = false →
      mget itt catId = some ttl → ttl ≠ "" →
      addCategoryLinks c (t0 :: rest) id tti itt =
        "[[" ++ catId ++ "|" ++ ttl ++ "]]" ++ "\n\n" ++ jsTrim c) ∧
    (∀ catId, SECOND_BRAIN_TAG ∉ t0 :: rest → t0 ≠ "" → t0 ≠ SECOND_BRAIN_TAG →
      mget tti t0 = some catId → catId ≠ id →
      containsStr c ("[[" ++ catId) = false →
      mget itt catId = none →
      addCategoryLinks c (t0 :: rest) id tti itt =
        "[[" ++ catId ++ "|" ++ t0 ++ "]]" ++ "\n\n" ++ jsTrim c) ∧
    (∀ sbId catId ttl, SECOND_BRAIN_TAG ∈ t0 :: rest → t0 ≠ "" → t0 ≠ SECOND_BRAIN_TAG →
      mget tti SECOND_BRAIN_TAG = some sbId → sbId ≠ id →
      containsStr c ("[[" ++ sbId) = false →
      mget tti t0 = some catId → catId ≠ id →
      containsStr c ("[[" ++ catId) = false →
      mget itt catId = some ttl → ttl ≠ "" →
      addCategoryLinks c (t0 :: rest) id tti itt =
        "[[" ++ sbId ++ "|" ++ SECOND_BRAIN_TAG ++ "]]" ++ " " ++
          ("[[" ++ catId ++ "|" ++ ttl ++ "]]") ++ "\n\n" ++ jsTrim c) := by
  refine ⟨?_, ?_, ?_, ?_⟩
  · intro hsb ht0 htsb hnone
    have hne1 : ¬ (SECOND_BRAIN_TAG = t0) := fun h => hsb (by simp [h])
    have hne2 : SECOND_BRAIN_TAG ∉ rest := fun h => hsb (List.mem_cons_of_mem _ h)
    simp [addCategoryLinks, hne1, hne2, ht0, htsb, hnone]
  · intro catId ttl hsb ht0 htsb hsome hne hcs httl httlne
    have hne1 : ¬ (SECOND_BRAIN_TAG = t0) := fun h => hsb (by simp [h])
    have hne2 : SECOND_BRAIN_TAG ∉ rest := fun h => hsb (List.mem_cons_of_mem _ h)
    simp [addCategoryLinks, hne1, hne2, ht0, htsb, hsome, hne, hcs, orElseStr,
          httl, httlne, joinStr]
  · intro catId hsb ht0 htsb hsome hne hcs hnone
    have hne1 : ¬ (SECOND_BRAIN_TAG = t0) := fun h => hsb (by simp [h])
    have hne2 : SECOND_BRAIN_TAG ∉ rest := fun h => hsb (List.mem_cons_of_mem _ h)
    simp [addCategoryLinks, hne1, hne2, ht0, htsb, hsome, hne, hcs, orElseStr,
          hnone, joinStr]
  · intro sbId catId ttl hsb ht0 htsb hsbid hsbne hsbcs hsome hne hcs httl httlne
    have hor := List.mem_cons.mp hsb
    simp [addCategoryLinks, hor, ht0, htsb, hsbid, hsbne, hsbcs, hsome,
          hne, hcs, orElseStr, httl, httlne, joinStr]

/-- Claim C8 counterexample: with a first tag that matches no note title,
the code prepends nothing at all — not a link with the raw tag text as the
claim describes. -/
theorem C8_counterexample :
    addCategoryLinks ("body") ["X"] "20240102030405" [] [] = "body" ∧
    containsStr (addCategoryLinks ("body") ["X"] "20240102030405" [] []) "[[" = false := by
  refine ⟨by decide, by decide⟩

/-- Claim C8 witness: the both-links case applied to concrete maps,
producing the two prepended links joined by one space, a blank line, and
the trimmed body. -/
theorem C8_witness :
    addCategoryLinks (" body text ") ["DevOps", "Second Brain"] "20240102030405"
        [("Second Brain", "20990101000000"), ("DevOps", "20990202000000")]
        [("20990101000000", "Second Brain"), ("20990202000000", "DevOps")] =
      "[[" ++ "20990101000000" ++ "|" ++ SECOND_BRAIN_TAG ++ "]]" ++ " " ++
        ("[[" ++ "20990202000000" ++ "|" ++ "DevOps" ++ "]]") ++ "\n\n" ++
        jsTrim (" body text ") :=
  (C8_category_linker (" body text ") "DevOps" ["Second Brain"]
      [("Second Brain", "20990101000000"), ("DevOps", "20990202000000")]
      [("20990101000000", "Second Brain"), ("20990202000000", "DevOps")]
      "20240102030405").2.2.2 ("20990101000000") "20990202000000" "DevOps"
    (by decide) (by decide) (by decide) (by decide) (by decide) (by decide)
    (by decide) (by decide) (by decide) (by decide) (by decide)

/-! ## Claim C6 -/

theorem takeWhile_ws_append (ws T : List Char) (hw : ∀ c ∈ ws, isJsWs c = true)
    (hT : ∀ c t, T = c :: t → isJsWs c = false) :
    (ws ++ T).takeWhile isJsWs = ws ∧ (ws ++ T).dropWhile isJsWs = T := by
  induction ws with
  | nil =>
    cases T with
    | nil => exact ⟨rfl, rfl⟩
    | cons c t =>
      have hc := hT c t rfl
      simp [List.takeWhile_cons, List.dropWhile_cons, hc]
  | cons w ws2 ih =>
    have hw0 := hw w (List.mem_cons_self w ws2)
    have ihr := ih (fun c hc => hw c (List.mem_cons_of_mem _ hc))
    simp [List.takeWhile_cons, List.dropWhile_cons, hw0, ihr.1, ihr.2]

theorem tryLinkUnit_at (inner ws T : List Char)
    (h1 : inner ≠ []) (h2 : ']' ∉ inner) (hw : ∀ c ∈ ws, isJsWs c = true)
    (hT : ∀ c t, T = c :: t → isJsWs c = false) :
    tryLinkUnit ('[' :: '[' :: (inner ++ ']' :: ']' :: (ws ++ T))) =
      some ('[' :: '[' :: inner ++ [']', ']'] ++ ws, T) := by
  unfold tryLinkUnit
  have hpre : ['[', '['].isPrefixOf
      ('[' :: '[' :: (inner ++ ']' :: ']' :: (ws ++ T))) = true := by
    simp [List.isPrefixOf]
  rw [if_pos hpre]
  show (match innerMatch (inner ++ ']' :: ']' :: (ws ++ T)) with
        | some (i, rest2) =>
          some ('[' :: '[' :: i ++ [']', ']'] ++ rest2.takeWhile isJsWs,
                rest2.dropWhile isJsWs)
        | none => none) = _
  rw [innerMatch_closed inner (ws ++ T) h1 h2]
  have hwt := takeWhile_ws_append ws T hw hT
  rw [show (match some (inner, ws ++ T) with
        | some (i, rest2) =>
          some ('[' :: '[' :: i ++ [']', ']'] ++ rest2.takeWhile isJsWs,
                rest2.dropWhile isJsWs)
        | none => (none : Option (List Char × List Char))) =
      some ('[' :: '[' :: inner ++ [']', ']'] ++ (ws ++ T).takeWhile isJsWs,
            (ws ++ T).dropWhile isJsWs) from rfl]
  rw [hwt.1, hwt.2]

theorem tryLinkUnit_none (l : List Char) (h : ∀ c t, l = c :: t → c ≠ '[') :
    tryLinkUnit l = none := by
  unfold tryLinkUnit
  have hpre : (['[', '['].isPrefixOf l) = false := by
    cases l with
    | nil => simp [List.isPrefixOf]
    | cons c t =>
      have hc := h c t rfl
      simp [List.isPrefixOf]
      intro hcc
      exact absurd hcc.symm hc
  rw [if_neg (by rw [hpre]; exact Bool.false_ne_true)]

theorem leadingRunAux_succ (fuel : Nat) (acc l : List Char) :
    leadingRunAux (fuel + 1) acc l =
      (match tryLinkUnit l with
       | some (m, rest) => leadingRunAux fuel (acc ++ m) rest
       | none => if acc.isEmpty then none else some (acc, l)) := rfl

theorem leadingRunAux_units (units : List (List Char × List Char)) :
    ∀ (T acc : List Char) (fuel : Nat),
    (renderUnits units).length ≤ fuel →
    (∀ u ∈ units, u.1 ≠ [] ∧ ']' ∉ u.1 ∧ ∀ c ∈ u.2, isJsWs c = true) →
    (∀ c t, T = c :: t → isJsWs c = false ∧ c ≠ '[') →
    (acc = [] → units ≠ []) →
    leadingRunAux fuel acc (renderUnits units ++ T) =
      some (acc ++ renderUnits units, T) := by
  induction units with
  | nil =>
    intro T acc fuel _ _ hT hne
    have hacc : acc ≠ [] := fun h => (hne h) rfl
    have htry : tryLinkUnit T = none :=
      tryLinkUnit_none T (fun c t h => (hT c t h).2)
    cases fuel with
    | zero => simp [leadingRunAux, isEmpty_false_of_ne hacc, renderUnits]
    | succ f =>
      rw [show renderUnits [] ++ T = T from by simp [renderUnits]]
      rw [leadingRunAux_succ, htry]
      simp [isEmpty_false_of_ne hacc, renderUnits]
  | cons u rest ih =>
    intro T acc fuel hfuel hu hT hne
    obtain ⟨inner, ws⟩ := u
    have hu0 := hu (inner, ws) (List.mem_cons_self _ rest)
    have hlen : (renderUnits ((inner, ws) :: rest)).length =
        4 + inner.length + ws.length + (renderUnits rest).length := by
      simp [renderUnits, List.length_append]; omega
    obtain ⟨f, rfl⟩ : ∃ f, fuel = f + 1 := by
      refine ⟨fuel - 1, ?_⟩
      rw [hlen] at hfuel
      omega
    have hshape : renderUnits ((inner, ws) :: rest) ++ T =
        '[' :: '[' :: (inner ++ ']' :: ']' :: (ws ++ (renderUnits rest ++ T))) := by
      simp [renderUnits]
    have hTT : ∀ c t, renderUnits rest ++ T = c :: t → isJsWs c = false := by
      cases rest with
      | nil =>
        intro c t h
        rw [show renderUnits [] ++ T = T from by simp [renderUnits]] at h
        exact (hT c t h).1
      | cons v vr =>
        obtain ⟨vi, vw⟩ := v
        intro c t h
        rw [show renderUnits ((vi, vw) :: vr) ++ T =
            '[' :: ('[' :: (vi ++ ']' :: ']' :: (vw ++ renderUnits vr)) ++ T) from by
              simp [renderUnits]] at h
        injection h with h1 h2
        rw [← h1]
        decide
    rw [hshape, leadingRunAux_succ,
        tryLinkUnit_at inner ws (renderUnits rest ++ T) hu0.1 hu0.2.1 hu0.2.2 hTT]
    show leadingRunAux f (acc ++ ('[' :: '[' :: inner ++ [']', ']'] ++ ws))
        (renderUnits rest ++ T) = _
    rw [ih T _ f (by rw [hlen] at hfuel; omega)
        (fun v hv => hu v (List.mem_cons_of_mem _ hv)) hT
        (fun h => absurd h (by simp))]
    have : acc ++ ('[' :: '[' :: inner ++ [']', ']'] ++ ws) ++ renderUnits rest =
        acc ++ renderUnits ((inner, ws) :: rest) := by
      simp [renderUnits]
    rw [this]

theorem leadingRun_units (units : List (List Char × List Char)) (T : List Char)
    (hu : ∀ u ∈ units, u.1 ≠ [] ∧ ']' ∉ u.1 ∧ ∀ c ∈ u.2, isJsWs c = true)
    (hT : ∀ c t, T = c :: t → isJsWs c = false ∧ c ≠ '[')
    (hunits : units ≠ []) :
    leadingRun (renderUnits units ++ T) = some (renderUnits units, T) := by
  unfold leadingRun
  have h := leadingRunAux_units units T [] (renderUnits units ++ T).length
    (by simp [List.length_append]) hu hT (fun _ => hunits)
  simpa using h

theorem leadingRun_none (l : List Char) (h : ∀ c t, l = c :: t → c ≠ '[') :
    leadingRun l = none := by
  unfold leadingRun
  cases l with
  | nil => rfl
  | cons c t =>
    rw [show (c :: t).length = t.length + 1 from rfl, leadingRunAux_succ,
        tryLinkUnit_none (c :: t) h]
    rfl

theorem dropWhile_append_cases (p : Char → Bool) (a b : List Char) :
    (a ++ b).dropWhile p =
      (if (a.dropWhile p).isEmpty then b.dropWhile p else a.dropWhile p ++ b) := by
  induction a with
  | nil => simp
  | cons c a2 ih =>
    by_cases hc : p c
    · simp [List.dropWhile_cons, hc, ih]
    · simp [List.dropWhile_cons, hc]

theorem marker_prefix_trim (t : List Char) :
    LINK_MARKER.data.isPrefixOf (jsTrimList (LINK_MARKER.data ++ t)) = true := by
  rw [show LINK_MARKER.data = "Link:".data from rfl]
  unfold jsTrimList
  have h1 : ("Link:".data ++ t).dropWhile isJsWs = "Link:".data ++ t := by
    rw [show ("Link:").data ++ t = 'L' :: ("ink:".data ++ t) from rfl]
    rw [List.dropWhile_cons]
    simp [show isJsWs 'L' = false from rfl]
  rw [h1]
  rw [show ("Link:".data ++ t).reverse = t.reverse ++ "Link:".data.reverse from by
    simp]
  rw [dropWhile_append_cases isJsWs t.reverse ("Link:").data.reverse]
  by_cases hdrop : (t.reverse.dropWhile isJsWs).isEmpty
  · rw [if_pos hdrop]
    have hrev : "Link:".data.reverse = ':' :: "kniL".data := by decide
    rw [hrev, List.dropWhile_cons]
    simp only [show isJsWs ':' = false from rfl, Bool.false_eq_true, if_false]
    rw [show (':' :: "kniL".data).reverse = "Link:".data from by decide]
    have hps := isPrefixOf_append_self ("Link:").data []
    simp
  · rw [if_neg hdrop]
    rw [List.reverse_append]
    rw [show ("Link:".data.reverse).reverse = "Link:".data from by simp]
    exact isPrefixOf_append_self ("Link:").data _

theorem removeLeadingTagLinks_strips (units : List (List Char × List Char))
    (t : List Char)
    (hu : ∀ u ∈ units, u.1 ≠ [] ∧ ']' ∉ u.1 ∧ ∀ c ∈ u.2, isJsWs c = true)
    (hunits : units ≠ []) :
    removeLeadingTagLinks (String.mk (renderUnits units ++ (LINK_MARKER.data ++ t))) =
      String.mk (jsTrimList (LINK_MARKER.data ++ t)) := by
  unfold removeLeadingTagLinks
  have hT : ∀ c s, LINK_MARKER.data ++ t = c :: s → isJsWs c = false ∧ c ≠ '[' := by
    intro c s h
    have hc : c = 'L' := by
      rw [show LINK_MARKER.data ++ t = 'L' :: ("ink:".data ++ t) from rfl] at h
      exact ((List.cons.injEq _ _ _ _ ▸ h : _ ∧ _).1).symm
    subst hc
    exact ⟨by decide, by decide⟩
  rw [show (String.mk (renderUnits units ++ (LINK_MARKER.data ++ t))).data =
      renderUnits units ++ (LINK_MARKER.data ++ t) from rfl]
  rw [leadingRun_units units (LINK_MARKER.data ++ t) hu hT hunits]
  show (if LINK_MARKER.data.isPrefixOf (jsTrimList (LINK_MARKER.data ++ t)) then
        String.mk (jsTrimList (LINK_MARKER.data ++ t))
      else String.mk (renderUnits units ++ (LINK_MARKER.data ++ t))) = _
  rw [if_pos (marker_prefix_trim t)]

theorem removeLeadingTagLinks_keeps (units : List (List Char × List Char))
    (T : List Char)
    (hu : ∀ u ∈ units, u.1 ≠ [] ∧ ']' ∉ u.1 ∧ ∀ c ∈ u.2, isJsWs c = true)
    (hT : ∀ c s, T = c :: s → isJsWs c = false ∧ c ≠ '[')
    (hunits : units ≠ [])
    (hmk : LINK_MARKER.data.isPrefixOf (jsTrimList T) = false) :
    removeLeadingTagLinks (String.mk (renderUnits units ++ T)) =
      String.mk (renderUnits units ++ T) := by
  unfold removeLeadingTagLinks
  rw [show (String.mk (renderUnits units ++ T)).data =
      renderUnits units ++ T from rfl]
  rw [leadingRun_units units T hu hT hunits]
  show (if LINK_MARKER.data.isPrefixOf (jsTrimList T) then String.mk (jsTrimList T)
      else String.mk (renderUnits units ++ T)) = _
  rw [if_neg (by rw [hmk]; exact Bool.false_ne_true)]

/-- Claim C6 (amended): the scrubber drops a leading run of double-bracket
references exactly when the trimmed text after the run starts with the
link marker, and otherwise leaves the body unchanged; a body that does not
begin with a reference is always unchanged.  The canonical links that the
Category Linker just prepended are therefore preserved UNLESS the trimmed
original body itself consists of a (possibly empty) reference run followed
by the marker, in which case the injected links are stripped along with
it. -/
theorem C6_tag_link_scrubber (units : List (List Char × List Char))
    (t T : List Char) (content : String)
    (hu : ∀ u ∈ units, u.1 ≠ [] ∧ ']' ∉ u.1 ∧ ∀ c ∈ u.2, isJsWs c = true)
    (hunits : units ≠ [])
    (hT : ∀ c s, T = c :: s → isJsWs c = false ∧ c ≠ '[') :
    (removeLeadingTagLinks (String.mk (renderUnits units ++ (LINK_MARKER.data ++ t))) =
      String.mk (jsTrimList (LINK_MARKER.data ++ t))) ∧
    (LINK_MARKER.data.isPrefixOf (jsTrimList T) = false →
      removeLeadingTagLinks (String.mk (renderUnits units ++ T)) =
        String.mk (renderUnits units ++ T)) ∧
    ((∀ c s, content.data = c :: s → c ≠ '[') →
      removeLeadingTagLinks content = content) := by
  refine ⟨removeLeadingTagLinks_strips units t hu hunits, ?_, ?_⟩
  · intro hmk
    exact removeLeadingTagLinks_keeps units T hu hT hunits hmk
  · intro hc
    unfold removeLeadingTagLinks
    rw [leadingRun_none content.data hc]

/-- Claim C6 counterexample: a body whose trimmed content begins with an
unresolved reference run followed by the marker; the Category Linker
prepends the canonical root link, and the scrubber then strips that very
link together with the legacy run, contradicting the claim that injected
links are never stripped. -/
theorem C6_counterexample :
    addCategoryLinks ("[[Tag]] Link: http://x") ["Second Brain"] "20240102030405"
        [("Second Brain", "20990101000000")] [("20990101000000", "Second Brain")] =
      "[[20990101000000|Second Brain]]\n\n[[Tag]] Link: http://x" ∧
    removeLeadingTagLinks ("[[20990101000000|Second Brain]]\n\n[[Tag]] Link: http://x") =
      "Link: http://x" ∧
    containsStr ("Link: http://x") "[[20990101000000" = false := by
  refine ⟨by decide, by decide, by decide⟩

/-- Claim C6 witness: a prepended canonical link followed by a blank line
and an ordinary body survives the scrubber. -/
theorem C6_witness :
    removeLeadingTagLinks (String.mk
        (renderUnits [("20990101000000|Second Brain".data, "\n\n".data)] ++ "Body".data)) =
      String.mk (renderUnits [("20990101000000|Second Brain".data, "\n\n".data)] ++
        "Body".data) :=
  (C6_tag_link_scrubber [("20990101000000|Second Brain".data, "\n\n".data)]
      [] "Body".data ("x") (by decide) (by decide)
      (by
        intro c s h
        injection h with h1 h2
        rw [← h1]
        exact ⟨rfl, by decide⟩)).2.1 (by decide)

/-! ## Claim C2: length lemmas -/

theorem natDecAux_len1 (fuel n : Nat) (hf : 1 ≤ fuel) (h : n < 10) :
    (natDecAux fuel n).length = 1 := by
  obtain ⟨f, rfl⟩ : ∃ f, fuel = f + 1 := ⟨fuel - 1, by omega⟩
  simp [natDecAux, h]

theorem natDecAux_len2 (fuel n : Nat) (hf : 2 ≤ fuel) (h1 : 10 ≤ n) (h2 : n ≤ 99) :
    (natDecAux fuel n).length = 2 := by
  obtain ⟨f, rfl⟩ : ∃ f, fuel = f + 1 := ⟨fuel - 1, by omega⟩
  rw [natDecAux]
  rw [if_neg (by omega)]
  rw [List.length_append, natDecAux_len1 f (n / 10) (by omega) (by omega)]
  rfl

theorem natDecAux_len3 (fuel n : Nat) (hf : 3 ≤ fuel) (h1 : 100 ≤ n) (h2 : n ≤ 999) :
    (natDecAux fuel n).length = 3 := by
  obtain ⟨f, rfl⟩ : ∃ f, fuel = f + 1 := ⟨fuel - 1, by omega⟩
  rw [natDecAux]
  rw [if_neg (by omega)]
  rw [List.length_append, natDecAux_len2 f (n / 10) (by omega) (by omega) (by omega)]
  rfl

theorem natDecAux_len4 (fuel n : Nat) (hf : 4 ≤ fuel) (h1 : 1000 ≤ n) (h2 : n ≤ 9999) :
    (natDecAux fuel n).length = 4 := by
  obtain ⟨f, rfl⟩ : ∃ f, fuel = f + 1 := ⟨fuel - 1, by omega⟩
  rw [natDecAux]
  rw [if_neg (by omega)]
  rw [List.length_append, natDecAux_len3 f (n / 10) (by omega) (by omega) (by omega)]
  rfl

theorem natDec_len1 (n : Nat) (h : n < 10) : (natDec n).length = 1 :=
  natDecAux_len1 (n + 1) n (by omega) h

theorem natDec_len4 (n : Nat) (h1 : 1000 ≤ n) (h2 : n ≤ 9999) :
    (natDec n).length = 4 :=
  natDecAux_len4 (n + 1) n (by omega) h1 h2

theorem pad2_len (n : Nat) (h : n ≤ 99) : (pad2 n).length = 2 := by
  unfold pad2
  by_cases h10 : n < 10
  · rw [if_pos h10, String.length_append]
    rw [natDec_len1 n h10]
    rfl
  · rw [if_neg h10]
    exact natDecAux_len2 (n + 1) n (by omega) (by omega) h

theorem generateId_len (m : Mtime) (h : m.Valid) : (generateId m).length = 14 := by
  obtain ⟨h1, h2, h3, h4, h5, h6, h7, h8, h9⟩ := h
  unfold generateId
  rw [String.length_append, String.length_append, String.length_append,
      String.length_append, String.length_append]
  rw [natDec_len4 m.year h1 h2, pad2_len m.month (by omega), pad2_len m.day (by omega),
      pad2_len m.hour (by omega), pad2_len m.minute (by omega),
      pad2_len m.second (by omega)]

theorem leBytes_len (k n : Nat) : (leBytes k n).length = k := by
  induction k generalizing n with
  | zero => rfl
  | succ j ih => simp [leBytes, ih]

theorem flatMap_hexByte_len (l : List Nat) : (l.flatMap hexByte).length = 2 * l.length := by
  induction l with
  | nil => rfl
  | cons a t ih =>
    rw [List.flatMap_cons, List.length_append, ih]
    simp [hexByte]
    omega

theorem md5hex_data_len (s : String) : (md5hex s).data.length = 32 := by
  unfold md5hex
  rw [show (String.mk ((leBytes 4 (md5chunksAux (md5pad (utf8Bytes s)).length
      (md5pad (utf8Bytes s)) ⟨0x67452301, 0xefcdab89, 0x98badcfe, 0x10325476⟩).a ++
      leBytes 4 (md5chunksAux (md5pad (utf8Bytes s)).length (md5pad (utf8Bytes s))
        ⟨0x67452301, 0xefcdab89, 0x98badcfe, 0x10325476⟩).b ++
      leBytes 4 (md5chunksAux (md5pad (utf8Bytes s)).length (md5pad (utf8Bytes s))
        ⟨0x67452301, 0xefcdab89, 0x98badcfe, 0x10325476⟩).c ++
      leBytes 4 (md5chunksAux (md5pad (utf8Bytes s)).length (md5pad (utf8Bytes s))
        ⟨0x67452301, 0xefcdab89, 0x98badcfe, 0x10325476⟩).d).flatMap hexByte)).data =
    ((leBytes 4 (md5chunksAux (md5pad (utf8Bytes s)).length (md5pad (utf8Bytes s))
        ⟨0x67452301, 0xefcdab89, 0x98badcfe, 0x10325476⟩).a ++
      leBytes 4 (md5chunksAux (md5pad (utf8Bytes s)).length (md5pad (utf8Bytes s))
        ⟨0x67452301, 0xefcdab89, 0x98badcfe, 0x10325476⟩).b ++
      leBytes 4 (md5chunksAux (md5pad (utf8Bytes s)).length (md5pad (utf8Bytes s))
        ⟨0x67452301, 0xefcdab89, 0x98badcfe, 0x10325476⟩).c ++
      leBytes 4 (md5chunksAux (md5pad (utf8Bytes s)).length (md5pad (utf8Bytes s))
        ⟨0x67452301, 0xefcdab89, 0x98badcfe, 0x10325476⟩).d).flatMap hexByte) from rfl]
  rw [flatMap_hexByte_len]
  rw [List.length_append, List.length_append, List.length_append,
      leBytes_len, leBytes_len, leBytes_len, leBytes_len]

theorem md5hex4_len (s : String) : (md5hex4 s).length = 4 := by
  unfold md5hex4
  rw [show (String.mk ((md5hex s).data.take 4)).length =
      ((md5hex s).data.take 4).length from rfl]
  rw [List.length_take, md5hex_data_len]
  rfl

theorem suffixed_len (b h : String) (hb : b.length = 14) (hh : h.length = 4) :
    (b ++ "-" ++ h).length = 19 := by
  rw [String.length_append, String.length_append, hb, hh]
  rfl

theorem string_ext {a b : String} (h : a.data = b.data) : a = b := by
  cases a
  cases b
  exact congrArg String.mk h

theorem suffix_id_inj (b1 h1 b2 h2 : String) (hb1 : b1.length = 14)
    (hb2 : b2.length = 14)
    (h : b1 ++ "-" ++ h1 = b2 ++ "-" ++ h2) : b1 = b2 ∧ h1 = h2 := by
  have hd : b1.data ++ '-' :: h1.data = b2.data ++ '-' :: h2.data := by
    have hc := congrArg String.data h
    rw [String.data_append, String.data_append, String.data_append,
        String.data_append] at hc
    simpa using hc
  have hlen : b1.data.length = b2.data.length := by
    rw [show b1.data.length = b1.length from rfl, show b2.data.length = b2.length from rfl,
        hb1, hb2]
  obtain ⟨hbeq, hteq⟩ := List.append_inj hd hlen
  refine ⟨string_ext hbeq, string_ext ?_⟩
  injection hteq

/-! ## Claim C2: the assignment loop refines the spec policy -/

theorem mget_append_isSome {m1 m2 : AList} {q : String}
    (h : (mget (m1 ++ m2) q).isSome = true) :
    (mget m1 q).isSome = true ∨ (mget m2 q).isSome = true := by
  induction m1 with
  | nil => exact Or.inr h
  | cons e rest ih =>
    obtain ⟨k0, v0⟩ := e
    by_cases h0 : k0 = q
    · left; simp [mget, h0]
    · rw [List.cons_append] at h
      simp only [mget, h0, if_false] at h ⊢
      exact ih h

theorem assignIdsAux_cons (bd : String) (f : MDFile) (rest : List MDFile)
    (idToPath pathToId : AList) :
    assignIdsAux bd (f :: rest) idToPath pathToId =
      assignIdsAux bd rest
        (mset idToPath
          (if mhas idToPath (generateId f.mtime) &&
              !(mget idToPath (generateId f.mtime) == some (fullPath bd f)) then
            generateId f.mtime ++ "-" ++ md5hex4 (fullPath bd f)
          else generateId f.mtime)
          (fullPath bd f))
        (mset pathToId (fullPath bd f)
          (if mhas idToPath (generateId f.mtime) &&
              !(mget idToPath (generateId f.mtime) == some (fullPath bd f)) then
            generateId f.mtime ++ "-" ++ md5hex4 (fullPath bd f)
          else generateId f.mtime)) := by
  rw [assignIdsAux]
  have hcond : (mhas idToPath (generateId f.mtime) &&
        !(mget idToPath (generateId f.mtime) == some (fullPath bd f))) =
      (mhas idToPath (generateId f.mtime) &&
        decide (mget idToPath (generateId f.mtime) ≠ some (fullPath bd f))) := by
    cases mget idToPath (generateId f.mtime) with
    | none => simp [mhas]
    | some v => by_cases hv : v = fullPath bd f <;> simp [mhas, hv]
  rw [hcond]

theorem assignIdsAux_spec (bd : String) :
    ∀ (rest prev : List MDFile) (idToPath pathToId : AList),
    (∀ f ∈ prev ++ rest, f.mtime.Valid) →
    ((prev ++ rest).map (fullPath bd)).Nodup →
    (∀ b : String, b.length = 14 →
      (mhas idToPath b = true ↔ ∃ g ∈ prev, generateId g.mtime = b)) →
    (∀ i p, mget idToPath i = some p → ∃ g ∈ prev, p = fullPath bd g) →
    (∀ p, (mget pathToId p).isSome = true → ∃ g ∈ prev, p = fullPath bd g) →
    assignIdsAux bd rest idToPath pathToId = pathToId ++ specAssignAux bd prev rest := by
  intro rest
  induction rest with
  | nil =>
    intro prev idToPath pathToId _ _ _ _ _
    simp [assignIdsAux, specAssignAux]
  | cons f rest2 ih =>
    intro prev idToPath pathToId hval hnd hinv hvals hpvals
    have hfval : f.mtime.Valid := hval f (by simp)
    have hid0len : (generateId f.mtime).length = 14 := generateId_len f.mtime hfval
    have hfp_not_prev : ∀ g ∈ prev, fullPath bd g ≠ fullPath bd f := by
      intro g hg hEq
      have h1 : (prev ++ f :: rest2).map (fullPath bd) =
          prev.map (fullPath bd) ++ fullPath bd f :: rest2.map (fullPath bd) := by
        simp
      rw [h1] at hnd
      have hdisj := (List.nodup_append.mp hnd).2.2
      exact hdisj (List.mem_map.mpr ⟨g, hg, rfl⟩)
        (hEq ▸ List.mem_cons_self (fullPath bd f) (rest2.map (fullPath bd)))
    have hlist : (prev ++ [f]) ++ rest2 = prev ++ f :: rest2 := by simp
    have hpath_none : mget pathToId (fullPath bd f) = none := by
      cases hm : mget pathToId (fullPath bd f) with
      | none => rfl
      | some v =>
        obtain ⟨g, hg, hge⟩ := hpvals (fullPath bd f) (by rw [hm]; rfl)
        exact absurd hge.symm (hfp_not_prev g hg)
    rw [assignIdsAux_cons]
    by_cases hb : mhas idToPath (generateId f.mtime) = true
    · -- collision: the file gets the suffixed id
      obtain ⟨p, hp⟩ : ∃ p, mget idToPath (generateId f.mtime) = some p := by
        unfold mhas at hb
        exact Option.isSome_iff_exists.mp hb
      obtain ⟨gp, hgp, hgpe⟩ := hvals _ p hp
      have hpneq : p ≠ fullPath bd f := hgpe ▸ hfp_not_prev gp hgp
      have hcond : (mhas idToPath (generateId f.mtime) &&
          !(mget idToPath (generateId f.mtime) == some (fullPath bd f))) = true := by
        rw [hb, hp]
        simp [hpneq]
      rw [if_pos hcond]
      obtain ⟨g0, hg0, hg0e⟩ := (hinv _ hid0len).mp hb
      have hany : prev.any (fun g => generateId g.mtime = generateId f.mtime) = true :=
        List.any_eq_true.mpr ⟨g0, hg0, by simp [hg0e]⟩
      have hspec : specId bd prev f =
          generateId f.mtime ++ "-" ++ md5hex4 (fullPath bd f) := by
        unfold specId
        rw [if_pos hany]
      have hsuflen : (generateId f.mtime ++ "-" ++ md5hex4 (fullPath bd f)).length = 19 :=
        suffixed_len _ _ hid0len (md5hex4_len _)
      rw [mset_eq_append pathToId _ _ hpath_none]
      rw [ih (prev ++ [f]) _ _
          (by rw [hlist]; exact hval)
          (by rw [hlist]; exact hnd)
          (by
            intro b hblen
            rw [mhas_mset]
            have hidneq : generateId f.mtime ++ "-" ++ md5hex4 (fullPath bd f) ≠ b := by
              intro hEq
              rw [hEq] at hsuflen
              omega
            constructor
            · intro hbb
              rw [Bool.or_eq_true] at hbb
              rcases hbb with h | h
              · exact absurd (of_decide_eq_true h) hidneq
              · obtain ⟨g, hg, hge⟩ := (hinv b hblen).mp h
                exact ⟨g, List.mem_append_left _ hg, hge⟩
            · rintro ⟨g, hg, hge⟩
              rcases List.mem_append.mp hg with hg2 | hg2
              · rw [Bool.or_eq_true]
                exact Or.inr ((hinv b hblen).mpr ⟨g, hg2, hge⟩)
              · have hgf : g = f := by simpa using hg2
                subst hgf
                rw [← hge]
                rw [Bool.or_eq_true]
                exact Or.inr hb)
          (by
            intro i p2 hi
            rw [mget_mset] at hi
            by_cases hc : generateId f.mtime ++ "-" ++ md5hex4 (fullPath bd f) = i
            · rw [if_pos hc] at hi
              exact ⟨f, List.mem_append_right _ (by simp), (Option.some.inj hi).symm⟩
            · rw [if_neg hc] at hi
              obtain ⟨g, hg, hge⟩ := hvals i p2 hi
              exact ⟨g, List.mem_append_left _ hg, hge⟩)
          (by
            intro p2 hp2
            rcases mget_append_isSome hp2 with h | h
            · obtain ⟨g, hg, hge⟩ := hpvals p2 h
              exact ⟨g, List.mem_append_left _ hg, hge⟩
            · have : p2 = fullPath bd f := by
                by_cases hc : fullPath bd f = p2
                · exact hc.symm
                · simp [mget, hc] at h
              exact ⟨f, List.mem_append_right _ (by simp), this⟩)]
      rw [show specAssignAux bd prev (f :: rest2) =
          (fullPath bd f, specId bd prev f) :: specAssignAux bd (prev ++ [f]) rest2
          from rfl, hspec]
      simp
    · -- fresh id: the file keeps the bare timestamp id
      have hbf : mhas idToPath (generateId f.mtime) = false := by
        cases hx : mhas idToPath (generateId f.mtime)
        · rfl
        · exact absurd hx hb
      have hcond : (mhas idToPath (generateId f.mtime) &&
          !(mget idToPath (generateId f.mtime) == some (fullPath bd f))) = false := by
        rw [hbf]
        rfl
      rw [if_neg (by rw [hcond]; exact Bool.false_ne_true)]
      have hnocoll : ∀ g ∈ prev, generateId g.mtime ≠ generateId f.mtime := by
        intro g hg hEq
        have := (hinv _ hid0len).mpr ⟨g, hg, hEq⟩
        rw [hbf] at this
        exact Bool.false_ne_true this
      have hany : prev.any (fun g => generateId g.mtime = generateId f.mtime) = false := by
        rw [List.any_eq_false]
        intro g hg
        simp [hnocoll g hg]
      have hspec : specId bd prev f = generateId f.mtime := by
        unfold specId
        rw [if_neg (by rw [hany]; exact Bool.false_ne_true)]
      rw [mset_eq_append pathToId _ _ hpath_none]
      rw [ih (prev ++ [f]) _ _
          (by rw [hlist]; exact hval)
          (by rw [hlist]; exact hnd)
          (by
            intro b hblen
            rw [mhas_mset]
            constructor
            · intro hbb
              rw [Bool.or_eq_true] at hbb
              rcases hbb with h | h
              · exact ⟨f, List.mem_append_right _ (by simp), of_decide_eq_true h⟩
              · obtain ⟨g, hg, hge⟩ := (hinv b hblen).mp h
                exact ⟨g, List.mem_append_left _ hg, hge⟩
            · rintro ⟨g, hg, hge⟩
              rcases List.mem_append.mp hg with hg2 | hg2
              · rw [Bool.or_eq_true]
                exact Or.inr ((hinv b hblen).mpr ⟨g, hg2, hge⟩)
              · have hgf : g = f := by simpa using hg2
                subst hgf
                rw [Bool.or_eq_true]
                exact Or.inl (decide_eq_true hge)
          )
          (by
            intro i p2 hi
            rw [mget_mset] at hi
            by_cases hc : generateId f.mtime = i
            · rw [if_pos hc] at hi
              exact ⟨f, List.mem_append_right _ (by simp), (Option.some.inj hi).symm⟩
            · rw [if_neg hc] at hi
              obtain ⟨g, hg, hge⟩ := hvals i p2 hi
              exact ⟨g, List.mem_append_left _ hg, hge⟩)
          (by
            intro p2 hp2
            rcases mget_append_isSome hp2 with h | h
            · obtain ⟨g, hg, hge⟩ := hpvals p2 h
              exact ⟨g, List.mem_append_left _ hg, hge⟩
            · have : p2 = fullPath bd f := by
                by_cases hc : fullPath bd f = p2
                · exact hc.symm
                · simp [mget, hc] at h
              exact ⟨f, List.mem_append_right _ (by simp), this⟩)]
      rw [show specAssignAux bd prev (f :: rest2) =
          (fullPath bd f, specId bd prev f) :: specAssignAux bd (prev ++ [f]) rest2
          from rfl, hspec]
      simp

theorem assignIds_spec (bd : String) (files : List MDFile)
    (hval : ∀ f ∈ files, f.mtime.Valid)
    (hnd : (files.map (fullPath bd)).Nodup) :
    assignIds bd files = specAssignAux bd [] files := by
  unfold assignIds
  have h := assignIdsAux_spec bd files [] [] []
    (by simpa using hval) (by simpa using hnd)
    (by intro b _; simp [mhas, mget])
    (by intro i p h; simp [mget] at h)
    (by intro p h; simp [mget] at h)
  simpa using h

theorem specAssignAux_mem (bd : String) :
    ∀ (rest prev : List MDFile) (p i : String),
    (p, i) ∈ specAssignAux bd prev rest →
    ∃ g ∈ rest, p = fullPath bd g ∧
      ((i = generateId g.mtime ∧
          ∀ q ∈ prev, generateId q.mtime ≠ generateId g.mtime) ∨
       i = generateId g.mtime ++ "-" ++ md5hex4 (fullPath bd g)) := by
  intro rest
  induction rest with
  | nil => intro prev p i h; simp [specAssignAux] at h
  | cons f rest2 ih =>
    intro prev p i h
    rw [show specAssignAux bd prev (f :: rest2) =
        (fullPath bd f, specId bd prev f) :: specAssignAux bd (prev ++ [f]) rest2
        from rfl] at h
    rcases List.mem_cons.mp h with he | hm
    · have hp : p = fullPath bd f := congrArg Prod.fst he
      have hi : i = specId bd prev f := congrArg Prod.snd he
      refine ⟨f, List.mem_cons_self f rest2, hp, ?_⟩
      by_cases hany : prev.any (fun g => generateId g.mtime = generateId f.mtime) = true
      · right
        rw [hi]
        unfold specId
        rw [if_pos hany]
      · left
        have hanyf : prev.any (fun g => generateId g.mtime = generateId f.mtime) = false := by
          cases hx : prev.any (fun g => generateId g.mtime = generateId f.mtime)
          · rfl
          · exact absurd hx hany
        constructor
        · rw [hi]
          unfold specId
          rw [if_neg (by rw [hanyf]; exact Bool.false_ne_true)]
        · intro q hq
          have := List.any_eq_false.mp hanyf q hq
          simpa using this
    · obtain ⟨g, hg, hpe, hcase⟩ := ih (prev ++ [f]) p i hm
      refine ⟨g, List.mem_cons_of_mem f hg, hpe, ?_⟩
      rcases hcase with ⟨hie, hall⟩ | hie
      · exact Or.inl ⟨hie, fun q hq => hall q (List.mem_append_left _ hq)⟩
      · exact Or.inr hie

theorem specAssignAux_values_nodup (bd : String) :
    ∀ (rest prev : List MDFile),
    (∀ f ∈ prev ++ rest, f.mtime.Valid) →
    ((prev ++ rest).map (fullPath bd)).Nodup →
    (∀ f ∈ prev ++ rest, ∀ g ∈ prev ++ rest, fullPath bd f ≠ fullPath bd g →
      generateId f.mtime = generateId g.mtime →
      md5hex4 (fullPath bd f) ≠ md5hex4 (fullPath bd g)) →
    ((specAssignAux bd prev rest).map Prod.snd).Nodup := by
  intro rest
  induction rest with
  | nil => intro prev _ _ _; simp [specAssignAux]
  | cons f rest2 ih =>
    intro prev hval hnd hhash
    have hfval : f.mtime.Valid := hval f (by simp)
    have hlist : (prev ++ [f]) ++ rest2 = prev ++ f :: rest2 := by simp
    have hfmem : f ∈ prev ++ f :: rest2 := by simp
    rw [show specAssignAux bd prev (f :: rest2) =
        (fullPath bd f, specId bd prev f) :: specAssignAux bd (prev ++ [f]) rest2
        from rfl]
    rw [List.map_cons]
    refine List.Nodup.cons ?_ (ih (prev ++ [f])
      (by rw [hlist]; exact hval) (by rw [hlist]; exact hnd)
      (by rw [hlist]; exact hhash))
    intro hmem
    obtain ⟨⟨p, i⟩, hpi, hsnd⟩ := List.mem_map.mp hmem
    obtain ⟨g, hg, hpe, hcase⟩ := specAssignAux_mem bd rest2 (prev ++ [f]) p i hpi
    have hgval : g.mtime.Valid := hval g (by simp [List.mem_cons_of_mem, hg])
    have hgmem : g ∈ prev ++ f :: rest2 := by
      simp [List.mem_cons_of_mem, hg]
    have hglen : (generateId g.mtime).length = 14 := generateId_len g.mtime hgval
    have hflen : (generateId f.mtime).length = 14 := generateId_len f.mtime hfval
    have hpathne : fullPath bd f ≠ fullPath bd g := by
      intro hEq
      have h1 : (prev ++ f :: rest2).map (fullPath bd) =
          prev.map (fullPath bd) ++ fullPath bd f :: rest2.map (fullPath bd) := by
        simp
      rw [h1] at hnd
      have h2 := (List.nodup_append.mp hnd).2.1
      rw [List.nodup_cons] at h2
      exact h2.1 (hEq ▸ List.mem_map.mpr ⟨g, hg, rfl⟩)
    have hsnd2 : specId bd prev f = i := by
      have h2 : i = specId bd prev f := by simpa using hsnd
      exact h2.symm
    by_cases hany : prev.any (fun q => generateId q.mtime = generateId f.mtime) = true
    · -- the head id is suffixed
      have hspec : specId bd prev f =
          generateId f.mtime ++ "-" ++ md5hex4 (fullPath bd f) := by
        unfold specId
        rw [if_pos hany]
      rcases hcase with ⟨hie, _⟩ | hie
      · -- tail id is bare: length clash
        have : (19 : Nat) = 14 := by
          have hl := congrArg String.length (hspec ▸ hsnd2 : _ = i)
          rw [suffixed_len _ _ hflen (md5hex4_len _)] at hl
          rw [hie] at hl
          rw [hglen] at hl
          exact hl
        omega
      · -- both suffixed: same base forces same hash, contradicting hhash
        have hEq : generateId f.mtime ++ "-" ++ md5hex4 (fullPath bd f) =
            generateId g.mtime ++ "-" ++ md5hex4 (fullPath bd g) := by
          rw [← hie]
          rw [← hspec, hsnd2]
        obtain ⟨hbase, hhash2⟩ := suffix_id_inj _ _ _ _ hflen hglen hEq
        exact hhash f hfmem g hgmem hpathne hbase hhash2
    · -- the head id is bare
      have hanyf : prev.any (fun q => generateId q.mtime = generateId f.mtime) = false := by
        cases hx : prev.any (fun q => generateId q.mtime = generateId f.mtime)
        · rfl
        · exact absurd hx hany
      have hspec : specId bd prev f = generateId f.mtime := by
        unfold specId
        rw [if_neg (by rw [hanyf]; exact Bool.false_ne_true)]
      rcases hcase with ⟨hie, hall⟩ | hie
      · -- tail id bare too: its freshness list contains f, so bases differ
        have hne := hall f (List.mem_append_right _ (by simp))
        have : generateId f.mtime = generateId g.mtime := by
          rw [← hspec, hsnd2, hie]
        exact hne this
      · -- bare head vs suffixed tail: length clash
        have : (14 : Nat) = 19 := by
          have hl := congrArg String.length (hspec ▸ hsnd2 : _ = i)
          rw [hflen] at hl
          rw [hie, suffixed_len _ _ hglen (md5hex4_len _)] at hl
          exact hl
        omega

/-- Claim C2 (amended): the id of every document is the 14-character local-time
string of its mtime, except that a document colliding with an earlier one
gets the 4-hex md5 suffix of its own path appended (the first keeps the
bare id); the resulting ids are pairwise distinct provided no two distinct
same-timestamp paths share the same 4-hex digest prefix (second-order
collisions are not handled by the code). -/
theorem C2_id_assignment (bd : String) (files : List MDFile)
    (hval : ∀ f ∈ files, f.mtime.Valid)
    (hnd : (files.map (fullPath bd)).Nodup)
    (hhash : ∀ f ∈ files, ∀ g ∈ files, fullPath bd f ≠ fullPath bd g →
      generateId f.mtime = generateId g.mtime →
      md5hex4 (fullPath bd f) ≠ md5hex4 (fullPath bd g)) :
    assignIds bd files = specAssignAux bd [] files ∧
    (∀ f ∈ files, (generateId f.mtime).length = 14) ∧
    ((assignIds bd files).map Prod.snd).Nodup := by
  refine ⟨assignIds_spec bd files hval hnd,
          fun f hf => generateId_len f.mtime (hval f hf), ?_⟩
  rw [assignIds_spec bd files hval hnd]
  exact specAssignAux_values_nodup bd files []
    (by simpa using hval) (by simpa using hnd) (by simpa using hhash)

set_option maxRecDepth 100000 in
/-- Claim C2 counterexample: three documents with equal modification time;
the second and third both receive the suffix fd58 (their paths share the
first four md5 hex digits), so two exported note ids are identical. -/
theorem C2_counterexample :
    ((assignIds ("/vault") c2vault).map Prod.snd =
      ["20240102030405", "20240102030405-fd58", "20240102030405-fd58"]) ∧
    ¬ ((assignIds ("/vault") c2vault).map Prod.snd).Nodup ∧
    ((notesOf (exportBrain ("/vault") c2vault [] none ("T"))).map Note.id =
      ["20240102030405", "20240102030405-fd58", "20240102030405-fd58"]) ∧
    ¬ ((notesOf (exportBrain ("/vault") c2vault [] none ("T"))).map Note.id).Nodup := by
  refine ⟨by decide, by decide, by decide, by decide⟩

set_option maxRecDepth 100000 in
/-- Claim C2 witness: the amended theorem applied to two same-timestamp
documents whose path hashes differ; the first keeps the bare id, the
second gets its own-path suffix, and the ids are distinct. -/
theorem C2_witness :
    ((∀ f ∈ c2pair, f.mtime.Valid) ∧ ((c2pair.map (fullPath ("/vault"))).Nodup) ∧
      (∀ f ∈ c2pair, ∀ g ∈ c2pair, fullPath ("/vault") f ≠ fullPath ("/vault") g →
        generateId f.mtime = generateId g.mtime →
        md5hex4 (fullPath ("/vault") f) ≠ md5hex4 (fullPath ("/vault") g))) ∧
    (assignIds ("/vault") c2pair = specAssignAux ("/vault") [] c2pair ∧
      (∀ f ∈ c2pair, (generateId f.mtime).length = 14) ∧
      ((assignIds ("/vault") c2pair).map Prod.snd).Nodup) :=
  ⟨⟨by decide, by decide, by decide⟩,
   C2_id_assignment ("/vault") c2pair (by decide) (by decide) (by decide)⟩

end CosmaBrain
